import Mathlib

set_option maxRecDepth 100000

/-!
Verification of the axis/widget dependency resolution engine of
`src/widgets/page.py` (`_AxisDependHelper`, used by `Page.draw`) and of the
settings subsystem of `src/setting/setting.py` (`Setting.set`, `Bool`, `Str`
and `Distance`).

The widget tree is represented by its pre-order visiting sequence, which is
all `recursivePlotterSearch` observes.  Widget identity (Python object
identity, used as dictionary key) is modelled by a natural-number id `wid`.
Numeric ranges are modelled over `Int`; `defaultrange = [1e99, -1e99]` becomes
`(10^99, -10^99)`, which preserves every comparison the code performs.

External collaborators that are part of the repository but not under `src/`
(`utils.topsort`, and the `AxisUser` capabilities `lookupAxis` / `getRange`)
are modelled from the spec; these definitions carry a
`Modelled from the spec:` note in their doc comment.
-/

namespace VeuszPage

/-- A graph node: `(widget, depname)` as in `_AxisDependHelper`.  Axes occur
as `(axis, None)`, plotter aspects as `(widget, some depname)`. -/
abbrev Node := Nat × Option String

/-- A numeric range `[min, max]`. -/
abbrev Range := Int × Int

def bigR : Int := 10 ^ 99

/-- `defaultrange = [1e99, -1e99]` from page.py. -/
def defaultrange : Range := (bigR, -bigR)

/-- Capability record of an `AxisUser` widget.
`axesNames` is `getAxesNames()`, `affects` is `affectsAxisRange()` as
`(axname, depname)` pairs and `requiresR` is `requiresAxisRange()` as
`(depname, axname)` pairs, exactly as the two loops of
`recursivePlotterSearch` unpack them.
`lookup` — Modelled from the spec: the `lookupAxis(name) -> AxisRef`
capability, as a finite name-to-axis table (a missing entry is the
unresolved-reference failure of spec §7).
`dataRanges` — Modelled from the spec: the data each aspect would contribute
through `getRange`, which "widens the accumulator in place using the data the
widget would plot". -/
structure AxisUserData where
  axesNames : List String
  lookup : List (String × Nat)
  affects : List (String × String)
  requiresR : List (String × String)
  dataRanges : List (String × Range)
deriving DecidableEq, Repr

/-- One widget of the tree, in pre-order visiting position.
`isaxis` models `hasattr(widget, 'isaxis')`; `hide` models
`settings.isSetting('hide')` (`none` = no such setting) together with the
setting's value; `storedRange` is the axis's stored automatic range, the
target of `setAutoRange` (written, never read, by the resolver). -/
structure WidgetRec where
  wid : Nat
  isaxis : Bool
  user : Option AxisUserData
  hide : Option Bool
  storedRange : Option (Option Range)
deriving DecidableEq, Repr

/-- Failures a resolution pass can raise: the unresolved-reference failure of
`lookupAxis` (spec §7) and a Python `KeyError` on a dictionary access. -/
inductive RErr where
  | unresolvedAxis (wid : Nat) (name : String)
  | keyError
deriving DecidableEq, Repr

/-- Observable actions of a pass: `contrib a w dn r` is a `getRange` call by
widget-aspect `(w, dn)` that leaves axis `a`'s accumulator at `r`;
`finalize a acc v` is a `setAutoRange v` call on axis `a` whose accumulator
was `acc` at that moment. -/
inductive REvent where
  | contrib (axis : Nat) (contributor : Nat) (depname : Option String) (newrange : Range)
  | finalize (axis : Nat) (acc : Range) (val : Option Range)
deriving DecidableEq, Repr

/-! ### Association-list dictionaries -/

def lookupStr {α : Type} : List (String × α) → String → Option α
  | [], _ => none
  | p :: t, k => if p.1 = k then some p.2 else lookupStr t k

def lookupNat {α : Type} : List (Nat × α) → Nat → Option α
  | [], _ => none
  | p :: t, k => if p.1 = k then some p.2 else lookupNat t k

/-- Replace the value stored at key `k` (the in-place widening of the
accumulator list `self.ranges[widget]`). -/
def setNat {α : Type} : List (Nat × α) → Nat → α → List (Nat × α)
  | [], _, _ => []
  | p :: t, k, v => if p.1 = k then (k, v) :: setNat t k v else p :: setNat t k v

/-- `del self.ranges[k]`. -/
def delNat {α : Type} : List (Nat × α) → Nat → List (Nat × α)
  | [], _ => []
  | p :: t, k => if p.1 = k then delNat t k else p :: delNat t k

def keysOf {α : Type} : List (Nat × α) → List Nat
  | [] => []
  | p :: t => p.1 :: keysOf t

/-! ### Graph construction: `recursivePlotterSearch` / `findPlotters` -/

/-- The accumulating state of `_AxisDependHelper`: `deps` (widget to the
widgets it depends on, kept in append order like the `defaultdict(list)`),
`axes`, `axis_plotter_map` and `pairs`. -/
structure BuildState where
  deps : List (Node × Node)
  axes : List Nat
  axisPlotterMap : List (Nat × Nat)
  pairs : List (Node × Node)
deriving DecidableEq, Repr

def initBuild : BuildState := ⟨[], [], [], []⟩

/-- The `for axname in widget.getAxesNames(): axis = widget.lookupAxis(axname)`
loop building `widgetaxes`.  A failing lookup surfaces as the distinct
unresolved-reference failure (Modelled from the spec: `lookupAxis` failure
semantics, spec §7). -/
def resolveAxes (wid : Nat) (lk : List (String × Nat)) : List String → Except RErr (List (String × Nat))
  | [] => .ok []
  | n :: ns =>
    match lookupStr lk n with
    | none => .error (.unresolvedAxis wid n)
    | some a =>
      match resolveAxes wid lk ns with
      | .error e => .error e
      | .ok rest => .ok ((n, a) :: rest)

/-- The `for axname, depname in widget.affectsAxisRange()` loop:
`p1, p2 = (axis, None), (widget, depname)`, `deps[p1].append(p2)`,
`pairs.append((p2, p1))`.  `widgetaxes[axname]` missing is a `KeyError`. -/
def affectsLoop (wid : Nat) (wa : List (String × Nat)) :
    BuildState → List (String × String) → Except RErr BuildState
  | st, [] => .ok st
  | st, (axname, depname) :: rest =>
    match lookupStr wa axname with
    | none => .error .keyError
    | some a =>
      affectsLoop wid wa
        { st with deps := st.deps ++ [((a, none), (wid, some depname))],
                  pairs := st.pairs ++ [((wid, some depname), (a, none))] } rest

/-- The `for depname, axname in widget.requiresAxisRange()` loop:
`p2, p1 = (axis, None), (widget, depname)`, `deps[p1].append(p2)`,
`pairs.append((p2, p1))`. -/
def requiresLoop (wid : Nat) (wa : List (String × Nat)) :
    BuildState → List (String × String) → Except RErr BuildState
  | st, [] => .ok st
  | st, (depname, axname) :: rest =>
    match lookupStr wa axname with
    | none => .error .keyError
    | some a =>
      requiresLoop wid wa
        { st with deps := st.deps ++ [((wid, some depname), (a, none))],
                  pairs := st.pairs ++ [((a, none), (wid, some depname))] } rest

/-- The `isinstance(widget, axisuser.AxisUser)` block of
`recursivePlotterSearch` for one widget. -/
def buildUserPart (st : BuildState) (w : WidgetRec) : Except RErr BuildState :=
  match w.user with
  | none => .ok st
  | some u =>
    match resolveAxes w.wid u.lookup u.axesNames with
    | .error e => .error e
    | .ok wa =>
      match affectsLoop w.wid wa
          { st with axisPlotterMap := st.axisPlotterMap ++ wa.map (fun p => (p.2, w.wid)) }
          u.affects with
      | .error e => .error e
      | .ok st2 => requiresLoop w.wid wa st2 u.requiresR

/-- `recursivePlotterSearch` on one widget: the `AxisUser` block, then the
`hasattr(widget, 'isaxis')` collection into `self.axes`. -/
def buildStep (st : BuildState) (w : WidgetRec) : Except RErr BuildState :=
  match buildUserPart st w with
  | .error e => .error e
  | .ok st1 => .ok { st1 with axes := if w.isaxis then st1.axes ++ [w.wid] else st1.axes }

/-- `recursivePlotterSearch(self.root)` over the pre-order widget sequence. -/
def buildList : BuildState → List WidgetRec → Except RErr BuildState
  | st, [] => .ok st
  | st, w :: ws =>
    match buildStep st w with
    | .error e => .error e
    | .ok st1 => buildList st1 ws

/-! ### Topological ordering (`utils.topsort`)

Modelled from the spec (§4.2): a Kahn-style topological sort over the node
set induced by the edge list; ties among simultaneously-ready nodes broken by
edge insertion (discovery) order; nodes remaining in cycles are appended in
discovery order rather than raising an error. -/

def firstDedupAux {α : Type} [DecidableEq α] (seen : List α) : List α → List α
  | [] => []
  | a :: l => if a ∈ seen then firstDedupAux seen l else a :: firstDedupAux (seen ++ [a]) l

/-- Deduplicate keeping the first occurrence of each element. -/
def firstDedup {α : Type} [DecidableEq α] (l : List α) : List α := firstDedupAux [] l

def nodePool : List (Node × Node) → List Node
  | [] => []
  | p :: r => p.1 :: p.2 :: nodePool r

/-- Nodes mentioned by the edge list, in discovery order. -/
def nodesOf (pairs : List (Node × Node)) : List Node := firstDedup (nodePool pairs)

def hasIncoming (pairs : List (Node × Node)) (rem : List Node) (x : Node) : Bool :=
  pairs.any (fun e => decide (e.2 = x) && decide (e.1 ∈ rem))

def eraseNode : List Node → Node → List Node
  | [], _ => []
  | y :: ys, x => if y = x then ys else y :: eraseNode ys x

/-- Modelled from the spec: Kahn's algorithm; when no zero-in-degree node is
left the remaining (cyclic) nodes are appended in discovery order. -/
def kahnLoop (pairs : List (Node × Node)) : Nat → List Node → List Node
  | 0, rem => rem
  | fuel + 1, rem =>
    match rem.find? (fun x => ! hasIncoming pairs rem x) with
    | none => rem
    | some x => x :: kahnLoop pairs fuel (eraseNode rem x)

/-- Modelled from the spec: `utils.topsort(pairs)`. -/
def topsort (pairs : List (Node × Node)) : List Node :=
  kahnLoop pairs (nodesOf pairs).length (nodesOf pairs)

/-! ### Range propagation: `processDepends` / `findAxisRanges` -/

/-- `self.deps[dep]`: the dependency list of one node, in append order. -/
def depsOf : List (Node × Node) → Node → List Node
  | [], _ => []
  | p :: t, k => if p.1 = k then p.2 :: depsOf t k else depsOf t k

/-- `not widget.settings.isSetting('hide') or not widget.settings.hide`. -/
def hideOk : Option Bool → Bool
  | none => true
  | some b => !b

/-- Modelled from the spec: `getRange(axis, depname, accumulator)` widens the
accumulator by the widget's data for that aspect (min of mins, max of maxes,
spec §3 AxisRangeState); an aspect without data leaves it unchanged. -/
def getRangeU (u : AxisUserData) (dn : Option String) (r : Range) : Range :=
  match dn with
  | none => r
  | some d =>
    match lookupStr u.dataRanges d with
    | none => r
    | some dr => (min r.1 dr.1, max r.2 dr.2)

def findWidget : List WidgetRec → Nat → Option WidgetRec
  | [], _ => none
  | w :: t, i => if w.wid = i then some w else findWidget t i

/-- State threaded through `processDepends`: the pending `self.ranges`
dictionary, the trace of observable actions, and a raised-exception flag
(a raised `KeyError` stops all further work but keeps effects already
performed, like the Python exception does). -/
structure PState where
  ranges : List (Nat × Range)
  events : List REvent
  err : Option RErr
deriving DecidableEq, Repr

/-- The `_isokuser(widgetd)` branch of `processDepends`:
`widgetd.getRange(widget, widgetd_dep, self.ranges[widget])`; the
`self.ranges[widget]` dictionary access raises `KeyError` when `widget` was
already finalized and deleted. -/
def contribPart (tbl : List WidgetRec) (dep wd : Node) (st : PState) : PState :=
  match findWidget tbl wd.1 with
  | none => st
  | some w =>
    match w.user with
    | none => st
    | some u =>
      if hideOk w.hide then
        match lookupNat st.ranges dep.1 with
        | none => { st with err := some .keyError }
        | some r =>
          { st with ranges := setNat st.ranges dep.1 (getRangeU u wd.2 r),
                    events := st.events ++ [.contrib dep.1 wd.1 wd.2 (getRangeU u wd.2 r)] }
      else st

/-- The `_isokaxis(widgetd)` branch of `processDepends`: read the
accumulator, turn the untouched `defaultrange` into `None`, call
`setAutoRange`, and delete the axis from `self.ranges`. -/
def finalizePart (tbl : List WidgetRec) (wd : Node) (st : PState) : PState :=
  match findWidget tbl wd.1 with
  | none => st
  | some w =>
    if w.isaxis then
      match lookupNat st.ranges wd.1 with
      | none => st
      | some axr =>
        let ev : REvent := .finalize wd.1 axr (if axr = defaultrange then none else some axr)
        { st with events := st.events ++ [ev], ranges := delNat st.ranges wd.1 }
    else st

/-- Body of the inner `for widgetd, widgetd_dep in self.deps[dep]` loop:
nothing runs once an exception is pending; a `KeyError` raised while
evaluating the `getRange` arguments skips the `_isokaxis` block. -/
def procPair (tbl : List WidgetRec) (dep wd : Node) (st : PState) : PState :=
  if st.err.isSome then st
  else if (contribPart tbl dep wd st).err.isSome then contribPart tbl dep wd st
  else finalizePart tbl wd (contribPart tbl dep wd st)

/-- One iteration of the outer `for dep in utils.topsort(self.pairs)` loop. -/
def procNode (tbl : List WidgetRec) (deps : List (Node × Node)) (st : PState) (dep : Node) : PState :=
  (depsOf deps dep).foldl (fun s wd => procPair tbl dep wd s) st

/-- `processDepends`. -/
def processDepends (tbl : List WidgetRec) (deps pairs : List (Node × Node)) (st : PState) : PState :=
  (topsort pairs).foldl (procNode tbl deps) st

/-- The `for axis, axrange in self.ranges.iteritems()` tail of
`findAxisRanges`: finalize every still-pending axis. -/
def finalizeLeft (l : List (Nat × Range)) (st : PState) : PState :=
  l.foldl (fun s p =>
    { s with events := s.events ++
        [.finalize p.1 p.2 (if p.2 = defaultrange then none else some p.2)] }) st

/-- `findAxisRanges`: run `processDepends`, then (unless it raised) finalize
the remaining pending axes. -/
def findAxisRanges (tbl : List WidgetRec) (deps pairs : List (Node × Node))
    (ranges0 : List (Nat × Range)) : PState :=
  let st := processDepends tbl deps pairs { ranges := ranges0, events := [], err := none }
  if st.err.isSome then st else finalizeLeft st.ranges st

/-- The state after the `processDepends` walk of `findAxisRanges`, for a
successful graph construction `b`. -/
def procOut (tree : List WidgetRec) (b : BuildState) : PState :=
  processDepends tree b.deps b.pairs
    { ranges := (firstDedup b.axes).map (fun a => (a, defaultrange)),
      events := [], err := none }

/-- Outcome of one full pass. -/
structure RunOut where
  events : List REvent
  err : Option RErr
deriving DecidableEq, Repr

/-- One full resolution pass, as `Page.draw` performs it: a fresh
`_AxisDependHelper`, `findPlotters()` (which also builds
`self.ranges = dict([(a, list(defaultrange)) for a in self.axes])`), then
`findAxisRanges()`.  A failure in `findPlotters` aborts before any range is
set. -/
def fullRun (tree : List WidgetRec) : RunOut :=
  match buildList initBuild tree with
  | .error e => { events := [], err := some e }
  | .ok b =>
    let st := findAxisRanges tree b.deps b.pairs
      ((firstDedup b.axes).map (fun a => (a, defaultrange)))
    { events := st.events, err := st.err }

/-- The `setAutoRange` calls of a trace, in call order. -/
def resultsList : List REvent → List (Nat × Option Range)
  | [] => []
  | .contrib _ _ _ _ :: r => resultsList r
  | .finalize a _ v :: r => (a, v) :: resultsList r

/-- The per-axis resolved ranges: the arguments of the `setAutoRange` calls,
in call order. -/
def resultsOf (r : RunOut) : List (Nat × Option Range) := resultsList r.events

/-! ### Convenience constructors for concrete widget trees -/

def mkAxis (i : Nat) : WidgetRec := ⟨i, true, none, none, none⟩

def mkUser (i : Nat) (axesNames : List String) (lookup : List (String × Nat))
    (affects requiresR : List (String × String)) (dataRanges : List (String × Range))
    (hide : Option Bool) : WidgetRec :=
  ⟨i, false, some ⟨axesNames, lookup, affects, requiresR, dataRanges⟩, hide, none⟩

/-! ### Trace well-formedness: finalize-once, never contribute after finalize -/

/-- The axes finalized by a trace. -/
def finSet : List REvent → List Nat
  | [] => []
  | .contrib _ _ _ _ :: r => finSet r
  | .finalize a _ _ :: r => a :: finSet r

/-- Scan a trace with the set `done` of axes already finalized: an axis must
never be finalized twice, and no contribution may target an axis already
finalized. -/
def eventsOkAux (done : List Nat) : List REvent → Bool
  | [] => true
  | .contrib a _ _ _ :: rest => ! decide (a ∈ done) && eventsOkAux done rest
  | .finalize a _ _ :: rest => ! decide (a ∈ done) && eventsOkAux (a :: done) rest

def eventsOk (evs : List REvent) : Bool := eventsOkAux [] evs

/-- The `done` set after scanning a trace. -/
def collectFin (done : List Nat) : List REvent → List Nat
  | [] => done
  | .contrib _ _ _ _ :: r => collectFin done r
  | .finalize a _ _ :: r => collectFin (a :: done) r

/-- The `setAutoRange` events the leftover loop of `findAxisRanges` emits for
a pending dictionary. -/
def finEventsOf (l : List (Nat × Range)) : List REvent :=
  l.map (fun p => .finalize p.1 p.2 (if p.2 = defaultrange then none else some p.2))

/-- Shape of every finalization: the untouched sentinel accumulator resolves
to `None` (automatic), any other accumulator is passed on as-is. -/
def finShape : REvent → Prop
  | .contrib _ _ _ _ => True
  | .finalize _ acc v => v = if acc = defaultrange then none else some acc

/-- The invariant carried through one `processDepends` walk: the trace so
far is well-formed, every finalized axis has left the pending dictionary,
and the pending dictionary has no duplicate keys. -/
def InvP (st : PState) : Prop :=
  eventsOk st.events = true ∧
    (∀ a, a ∈ collectFin [] st.events → a ∉ keysOf st.ranges) ∧
    (keysOf st.ranges).Nodup

/-! ### Hidden-widget equivalence (for the non-interference property) -/

/-- Two `AxisUser` capability records that agree on everything except,
when the owning widget is hidden, possibly their contributed data. -/
def sameUser (h : Option Bool) (u1 u2 : AxisUserData) : Bool :=
  decide (u1.axesNames = u2.axesNames) && decide (u1.lookup = u2.lookup) &&
    decide (u1.affects = u2.affects) && decide (u1.requiresR = u2.requiresR) &&
    (decide (u1.dataRanges = u2.dataRanges) || decide (h = some true))

def sameWidget (w1 w2 : WidgetRec) : Bool :=
  decide (w1.wid = w2.wid) && decide (w1.isaxis = w2.isaxis) && decide (w1.hide = w2.hide) &&
    match w1.user, w2.user with
    | none, none => true
    | some u1, some u2 => sameUser w1.hide u1 u2
    | _, _ => false

/-- Two widget trees that differ at most in the contributed data of hidden
widgets (and in the stored ranges, which the resolver writes but never
reads). -/
def hiddenEquiv : List WidgetRec → List WidgetRec → Bool
  | [], [] => true
  | w1 :: t1, w2 :: t2 => sameWidget w1 w2 && hiddenEquiv t1 t2
  | _, _ => false

/-! ### Writing resolved ranges back onto the axis widgets -/

/-- Store each resolved range on its axis widget (the effect the
`setAutoRange` calls have on the tree between two passes). -/
def writeBack (tree : List WidgetRec) (res : List (Nat × Option Range)) : List WidgetRec :=
  tree.map (fun w =>
    if w.isaxis then
      match lookupNat res w.wid with
      | some v => { w with storedRange := some v }
      | none => w
    else w)

/-! ### Helper views used in theorem statements -/

def pairsOfTree (t : List WidgetRec) : List (Node × Node) :=
  match buildList initBuild t with
  | .ok b => b.pairs
  | .error _ => []

def axesOfTree (t : List WidgetRec) : List Nat :=
  match buildList initBuild t with
  | .ok b => b.axes
  | .error _ => []

/-- `findPlotters` followed by reading off the evaluation order. -/
def topsortTree (t : List WidgetRec) : Except RErr (List Node) :=
  match buildList initBuild t with
  | .error e => .error e
  | .ok b => .ok (topsort b.pairs)

/-! ### Concrete widget trees used by the claims -/

/-- A genuinely cyclic aspect-level dependency graph: plotter 2 both affects
and requires axis 1 through the same aspect `s`. -/
def c1cycleTree : List WidgetRec :=
  [mkAxis 1, mkUser 2 ["x"] [("x", 1)] [("x", "s")] [("s", "x")] [("s", (0, 10))] none]

/-- The spec §8 scenario: plotter 3 affects axis 1 and requires axis 2,
plotter 4 affects axis 2 and requires axis 1 (widget-level cycle
`P1 → X → P2 → Y → P1`). -/
def c1specTree : List WidgetRec :=
  [mkAxis 1, mkAxis 2,
   mkUser 3 ["x", "y"] [("x", 1), ("y", 2)] [("x", "sx")] [("sy", "y")] [("sx", (0, 10))] none,
   mkUser 4 ["x", "y"] [("x", 1), ("y", 2)] [("y", "sy")] [("sx", "x")] [("sy", (3, 7))] none]

/-- Plotter 2 requires axis 1 and contributes nothing. -/
def c2tree : List WidgetRec :=
  [mkAxis 1, mkUser 2 ["y"] [("y", 1)] [] [("sy", "y")] [] none]

/-- Witness tree for the edge-emission property: plotter 2 affects and
requires axis 1. -/
def c2wTree : List WidgetRec :=
  [mkAxis 1, mkUser 2 ["x"] [("x", 1)] [("x", "sx")] [("sy", "x")] [] none]

def c2wOut : BuildState :=
  match buildList initBuild c2wTree with
  | .ok b => b
  | .error _ => initBuild

/-- Axis 1 is touched by no edge; the aspect-level cycle on axis 2 makes the
pass raise before the leftover finalization loop runs. -/
def c4badTree : List WidgetRec :=
  [mkAxis 1, mkAxis 2, mkUser 3 ["x"] [("x", 2)] [("x", "s")] [("s", "x")] [] none]

/-- A tree with no dependency edges at all. -/
def c4wTree : List WidgetRec := [mkAxis 1, mkAxis 7, mkUser 9 [] [] [] [] [] none]

def c4wOut : BuildState :=
  match buildList initBuild c4wTree with
  | .ok b => b
  | .error _ => initBuild

/-- Axis 1 fed only by the hidden plotter 2 contributing `[0, 5]`. -/
def c5hiddenTree : List WidgetRec :=
  [mkAxis 1, mkUser 2 ["y"] [("y", 1)] [("y", "s")] [] [("s", (0, 5))] (some true)]

/-- Same tree with the hidden plotter's data changed to `[7, 9]`. -/
def c5hiddenTree2 : List WidgetRec :=
  [mkAxis 1, mkUser 2 ["y"] [("y", 1)] [("y", "s")] [] [("s", (7, 9))] (some true)]

/-- Axis 1 fed by hidden plotter 2 (`[0, 5]`) and visible plotter 3
(`[1, 2]`). -/
def c5mixTree : List WidgetRec :=
  [mkAxis 1,
   mkUser 2 ["y"] [("y", 1)] [("y", "s")] [] [("s", (0, 5))] (some true),
   mkUser 3 ["y"] [("y", 1)] [("y", "s")] [] [("s", (1, 2))] (some false)]

/-- Axis 1 with two visible plotters contributing `[0, 10]` and `[5, 20]`. -/
def c6tree : List WidgetRec :=
  [mkAxis 1,
   mkUser 2 ["x"] [("x", 1)] [("x", "sx")] [] [("sx", (0, 10))] none,
   mkUser 3 ["x"] [("x", 1)] [("x", "sx")] [] [("sx", (5, 20))] none]

/-- Widget 2 declares axis name `x` but its `lookupAxis` cannot resolve it;
axis 3 and its plotter 4 come after it in the traversal. -/
def c8tree : List WidgetRec :=
  [mkUser 2 ["x"] [] [("x", "s")] [] [] none, mkAxis 3,
   mkUser 4 ["y"] [("y", 3)] [("y", "s")] [] [("s", (0, 10))] none]

def c8badWidget : WidgetRec := mkUser 2 ["x"] [] [("x", "s")] [] [] none

end VeuszPage

namespace VeuszSetting

/-! ## `src/setting/setting.py`

Python values, as far as the `convertTo` type checks of the `Setting`
subclasses inspect them. -/

inductive PyVal where
  | pybool (b : Bool)
  | pyint (n : Int)
  | pystr (s : String)
  | pynone
deriving DecidableEq, Repr

/-- `Bool.convertTo`: `if type(val) in (bool, int): return bool(val)`,
otherwise `raise InvalidType`. -/
def boolConvertTo : PyVal → Except Unit PyVal
  | .pybool b => .ok (.pybool b)
  | .pyint n => .ok (.pybool (! decide (n = 0)))
  | _ => .error ()

/-- `Str.convertTo`: strings pass through, anything else raises
`InvalidType`. -/
def strConvertTo : PyVal → Except Unit PyVal
  | .pystr s => .ok (.pystr s)
  | _ => .error ()

/-- The mutable state of a `Setting`: the stored value and the registered
`onmodified` callbacks (identified by number). -/
structure SettingSt where
  val : PyVal
  onmodified : List Nat
deriving DecidableEq, Repr

/-- `Setting.set`: `self.val = self.convertTo(val)` — the right-hand side is
evaluated first, so a raised `InvalidType` leaves `self.val` untouched and
skips the `for i in self.onmodified: i(True)` loop.  Returns the state after
the call, the callbacks invoked, and whether an exception was raised. -/
def settingSetRun (conv : PyVal → Except Unit PyVal) (s : SettingSt) (v : PyVal) :
    SettingSt × List Nat × Bool :=
  match conv v with
  | .error _ => (s, [], true)
  | .ok w => ({ s with val := w }, s.onmodified, false)

/-! ### `Distance`: the `_distregexp` table, `isDist` and `convert`

Each regular expression of `_distregexp` is compiled to an anchored matcher
over character lists.  All patterns have the shape
`^([0-9\.]+) <separators/suffix>$` where no suffix character belongs to the
class `[0-9.]`, so the greedy group is exactly the longest numeric prefix and
no backtracking can change the outcome. -/

def isNumChar (c : Char) : Bool := c.isDigit || decide (c = '.')

def numPre (s : List Char) : List Char := s.takeWhile isNumChar

def numSuf (s : List Char) : List Char := s.dropWhile isNumChar

def dropSpaces (s : List Char) : List Char := s.dropWhile (fun c => decide (c = ' '))

/-- Python `str.strip()` whitespace. -/
def isSpaceChar (c : Char) : Bool :=
  decide (c = ' ') || decide (c = '\t') || decide (c = '\n') || decide (c = '\x0b') ||
    decide (c = '\x0c') || decide (c = '\r')

def stripChars (s : List Char) : List Char :=
  ((s.dropWhile isSpaceChar).reverse.dropWhile isSpaceChar).reverse

/-- `^([0-9\.]+) *<suf>$` for a literal suffix `suf`. -/
def reMatchSuffix (suf : List Char) (s : List Char) : Bool :=
  ! (numPre s).isEmpty && decide (dropSpaces (numSuf s) = suf)

/-- `^([0-9\.]+) *%$` -/
def reMatchPerc (s : List Char) : Bool := reMatchSuffix ['%'] s

/-- `^([0-9\.]+) */ *([0-9\.]+)$` -/
def reMatchFrac (s : List Char) : Bool :=
  match dropSpaces (numSuf s) with
  | '/' :: r2 =>
    let r3 := dropSpaces r2
    ! (numPre s).isEmpty && ! (numPre r3).isEmpty && (numSuf r3).isEmpty
  | _ => false

/-- `^([0-9\.]+) *pt$` -/
def reMatchPt (s : List Char) : Bool := reMatchSuffix ['p', 't'] s

/-- `^([0-9\.]+) *cm$` -/
def reMatchCm (s : List Char) : Bool := reMatchSuffix ['c', 'm'] s

/-- `^([0-9\.]+) *mm$` -/
def reMatchMm (s : List Char) : Bool := reMatchSuffix ['m', 'm'] s

/-- `^([0-9\.]+) *(inch|in|")$` -/
def reMatchInch (s : List Char) : Bool :=
  ! (numPre s).isEmpty &&
    (decide (dropSpaces (numSuf s) = ['i', 'n', 'c', 'h']) ||
      decide (dropSpaces (numSuf s) = ['i', 'n']) ||
      decide (dropSpaces (numSuf s) = ['\"']))

/-- `^([0-9\.]+)$` -/
def reMatchRatio (s : List Char) : Bool := ! s.isEmpty && s.all isNumChar

/-- The `_distregexp` table, in source order (percentage, fraction, pt, cm,
mm, inch, bare ratio).  The conversion functions attached to each entry do
painter-dependent floating-point arithmetic and are out of scope; a match is
identified by its table index. -/
def distMatchers : List (List Char → Bool) :=
  [reMatchPerc, reMatchFrac, reMatchPt, reMatchCm, reMatchMm, reMatchInch, reMatchRatio]

/-- `Distance.isDist`: strip, then test the table's regexps in order. -/
def isDist (dist : String) : Bool :=
  distMatchers.any (fun m => m (stripChars dist.data))

/-- `Distance.convertTo`: store the value if `isDist` accepts it. -/
def distConvertTo (v : String) : Except Unit String :=
  if isDist v then .ok v else .error ()

/-- The `for reg, fn in _distregexp` loop of `Distance.convert`: index of
the first matching table entry. -/
def firstMatch (d : List Char) : List (List Char → Bool) → Option Nat
  | [] => none
  | m :: rest => if m d then some 0 else (firstMatch d rest).map (fun i => i + 1)

/-- The regexp scan of `Distance.convert`: the index of the first matching
table entry (whose conversion function is then called and its value
returned), or `none` for the
`raise ValueError("Cannot convert distance in form ...")` branch. -/
def distanceConvert (v : String) : Option Nat :=
  firstMatch (stripChars v.data) distMatchers

end VeuszSetting

namespace VeuszPage

/-! ## Theorems -/

/-! ### Association-list dictionary lemmas -/

theorem lookupNat_some_mem {α : Type} {l : List (Nat × α)} {a : Nat} {v : α}
    (h : lookupNat l a = some v) : (a, v) ∈ l := by
  induction l with
  | nil => cases h
  | cons p t ih =>
    rw [lookupNat] at h
    by_cases hp : p.1 = a
    · rw [if_pos hp] at h
      have hv : p.2 = v := by
        cases h
        rfl
      have hpav : p = (a, v) := by
        cases p
        cases hp
        cases hv
        rfl
      rw [← hpav]
      exact List.mem_cons_self p t
    · rw [if_neg hp] at h
      exact List.mem_cons_of_mem _ (ih h)

theorem lookupNat_none_iff {α : Type} (l : List (Nat × α)) (a : Nat) :
    lookupNat l a = none ↔ a ∉ keysOf l := by
  induction l with
  | nil => simp [lookupNat, keysOf]
  | cons p t ih =>
    rw [lookupNat, keysOf]
    by_cases hp : p.1 = a
    · rw [if_pos hp]
      simp [hp]
    · rw [if_neg hp]
      rw [ih]
      simp only [List.mem_cons]
      constructor
      · intro h hc
        cases hc with
        | inl hc => exact hp hc.symm
        | inr hc => exact h hc
      · intro h hc
        exact h (Or.inr hc)

theorem lookupNat_isSome_mem_keys {α : Type} {l : List (Nat × α)} {a : Nat} {v : α}
    (h : lookupNat l a = some v) : a ∈ keysOf l := by
  by_contra hc
  rw [← lookupNat_none_iff] at hc
  rw [h] at hc
  cases hc

theorem keysOf_setNat {α : Type} (l : List (Nat × α)) (k : Nat) (v : α) :
    keysOf (setNat l k v) = keysOf l := by
  induction l with
  | nil => rfl
  | cons p t ih =>
    rw [setNat]
    by_cases hp : p.1 = k
    · rw [if_pos hp, keysOf, keysOf, ih, hp]
    · rw [if_neg hp, keysOf, keysOf, ih]

theorem lookupNat_setNat_ne {α : Type} (l : List (Nat × α)) (k a : Nat) (v : α)
    (h : a ≠ k) : lookupNat (setNat l k v) a = lookupNat l a := by
  induction l with
  | nil => rfl
  | cons p t ih =>
    rw [setNat]
    by_cases hp : p.1 = k
    · rw [if_pos hp, lookupNat, lookupNat]
      have hka : ¬ (k = a) := fun hk => h hk.symm
      have hpa : ¬ (p.1 = a) := by
        rw [hp]
        exact hka
      rw [if_neg hka, if_neg hpa]
      exact ih
    · rw [if_neg hp, lookupNat, lookupNat]
      by_cases hq : p.1 = a
      · rw [if_pos hq, if_pos hq]
      · rw [if_neg hq, if_neg hq]
        exact ih

theorem mem_keysOf_delNat {α : Type} (l : List (Nat × α)) (k a : Nat) :
    a ∈ keysOf (delNat l k) ↔ a ∈ keysOf l ∧ a ≠ k := by
  induction l with
  | nil => simp [delNat, keysOf]
  | cons p t ih =>
    rw [delNat]
    by_cases hp : p.1 = k
    · rw [if_pos hp, keysOf]
      rw [ih]
      simp only [List.mem_cons]
      constructor
      · rintro ⟨h1, h2⟩
        exact ⟨Or.inr h1, h2⟩
      · rintro ⟨h1, h2⟩
        refine ⟨?_, h2⟩
        cases h1 with
        | inl h1 => exact absurd (h1.trans hp) h2
        | inr h1 => exact h1
    · rw [if_neg hp, keysOf, keysOf]
      simp only [List.mem_cons, ih]
      constructor
      · intro h
        cases h with
        | inl h1 =>
          refine ⟨Or.inl h1, ?_⟩
          rw [h1]
          intro hc
          rw [hc] at hp
          exact hp rfl
        | inr h1 => exact ⟨Or.inr h1.1, h1.2⟩
      · rintro ⟨h1, h2⟩
        cases h1 with
        | inl h1 => exact Or.inl h1
        | inr h1 => exact Or.inr ⟨h1, h2⟩

theorem keysOf_delNat_nodup {α : Type} (l : List (Nat × α)) (k : Nat)
    (h : (keysOf l).Nodup) : (keysOf (delNat l k)).Nodup := by
  induction l with
  | nil => exact List.nodup_nil
  | cons p t ih =>
    rw [keysOf] at h
    have h1 := List.nodup_cons.mp h
    rw [delNat]
    by_cases hp : p.1 = k
    · rw [if_pos hp]
      exact ih h1.2
    · rw [if_neg hp, keysOf]
      refine List.nodup_cons.mpr ⟨?_, ih h1.2⟩
      intro hc
      exact h1.1 ((mem_keysOf_delNat t k p.1).mp hc).1

theorem lookupNat_delNat_ne {α : Type} (l : List (Nat × α)) (k a : Nat)
    (h : a ≠ k) : lookupNat (delNat l k) a = lookupNat l a := by
  induction l with
  | nil => rfl
  | cons p t ih =>
    rw [delNat]
    by_cases hp : p.1 = k
    · rw [if_pos hp, lookupNat]
      have hpa : ¬ (p.1 = a) := by
        rw [hp]
        exact fun hk => h hk.symm
      rw [if_neg hpa]
      exact ih
    · rw [if_neg hp, lookupNat, lookupNat]
      by_cases hq : p.1 = a
      · rw [if_pos hq, if_pos hq]
      · rw [if_neg hq, if_neg hq]
        exact ih

theorem lookupNat_map_const {α : Type} (v : α) (l : List Nat) (a : Nat) (h : a ∈ l) :
    lookupNat (l.map (fun x => (x, v))) a = some v := by
  induction l with
  | nil => cases h
  | cons x xs ih =>
    rw [List.map_cons, lookupNat]
    by_cases hx : x = a
    · rw [if_pos hx]
    · rw [if_neg hx]
      refine ih ?_
      cases h with
      | head => exact absurd rfl hx
      | tail _ h2 => exact h2

/-! ### First-occurrence deduplication lemmas -/

theorem mem_firstDedupAux {α : Type} [DecidableEq α] (l : List α) :
    ∀ (seen : List α) (a : α), a ∈ firstDedupAux seen l ↔ a ∈ l ∧ a ∉ seen := by
  induction l with
  | nil =>
    intro seen a
    simp [firstDedupAux]
  | cons x xs ih =>
    intro seen a
    rw [firstDedupAux]
    by_cases hx : x ∈ seen
    · rw [if_pos hx, ih]
      simp only [List.mem_cons]
      constructor
      · rintro ⟨h1, h2⟩
        exact ⟨Or.inr h1, h2⟩
      · rintro ⟨h1, h2⟩
        cases h1 with
        | inl h1 =>
          rw [h1] at h2
          exact absurd hx h2
        | inr h1 => exact ⟨h1, h2⟩
    · rw [if_neg hx]
      by_cases ha : a = x
      · subst ha
        constructor
        · intro _
          exact ⟨List.mem_cons_self a xs, hx⟩
        · intro _
          exact List.mem_cons_self a _
      · simp only [List.mem_cons, ha, false_or]
        rw [ih]
        simp [List.mem_append, ha]

theorem mem_firstDedup {α : Type} [DecidableEq α] (l : List α) (a : α) :
    a ∈ firstDedup l ↔ a ∈ l := by
  rw [firstDedup, mem_firstDedupAux]
  simp

theorem firstDedupAux_nodup {α : Type} [DecidableEq α] (l : List α) :
    ∀ seen : List α, (firstDedupAux seen l).Nodup := by
  induction l with
  | nil =>
    intro seen
    exact List.nodup_nil
  | cons x xs ih =>
    intro seen
    rw [firstDedupAux]
    by_cases hx : x ∈ seen
    · rw [if_pos hx]
      exact ih seen
    · rw [if_neg hx]
      refine List.nodup_cons.mpr ⟨?_, ih _⟩
      rw [mem_firstDedupAux]
      rintro ⟨_, h2⟩
      exact h2 (by simp)

theorem firstDedup_nodup {α : Type} [DecidableEq α] (l : List α) :
    (firstDedup l).Nodup := firstDedupAux_nodup l []

/-! ### Build-phase lemmas -/

theorem buildList_append (st : BuildState) (l1 l2 : List WidgetRec) :
    buildList st (l1 ++ l2) =
      match buildList st l1 with
      | .error e => .error e
      | .ok st1 => buildList st1 l2 := by
  induction l1 generalizing st with
  | nil => rfl
  | cons w ws ih =>
    simp only [List.cons_append, buildList]
    cases buildStep st w with
    | error e => rfl
    | ok st1 => exact ih st1

theorem affectsLoop_pairs_mono (wid : Nat) (wa : List (String × Nat)) :
    ∀ (l : List (String × String)) (st st' : BuildState),
      affectsLoop wid wa st l = .ok st' → ∀ p ∈ st.pairs, p ∈ st'.pairs := by
  intro l
  induction l with
  | nil =>
    intro st st' h p hp
    cases h
    exact hp
  | cons x rest ih =>
    intro st st' h p hp
    obtain ⟨axname, depname⟩ := x
    rw [affectsLoop] at h
    cases hlk : lookupStr wa axname with
    | none =>
      rw [hlk] at h
      simp only [] at h
      cases h
    | some a =>
      rw [hlk] at h
      simp only [] at h
      refine ih _ _ h p ?_
      exact List.mem_append_left _ hp

theorem requiresLoop_pairs_mono (wid : Nat) (wa : List (String × Nat)) :
    ∀ (l : List (String × String)) (st st' : BuildState),
      requiresLoop wid wa st l = .ok st' → ∀ p ∈ st.pairs, p ∈ st'.pairs := by
  intro l
  induction l with
  | nil =>
    intro st st' h p hp
    cases h
    exact hp
  | cons x rest ih =>
    intro st st' h p hp
    obtain ⟨depname, axname⟩ := x
    rw [requiresLoop] at h
    cases hlk : lookupStr wa axname with
    | none =>
      rw [hlk] at h
      simp only [] at h
      cases h
    | some a =>
      rw [hlk] at h
      simp only [] at h
      refine ih _ _ h p ?_
      exact List.mem_append_left _ hp

theorem buildUserPart_pairs_mono {st st' : BuildState} {w : WidgetRec}
    (h : buildUserPart st w = .ok st') : ∀ p ∈ st.pairs, p ∈ st'.pairs := by
  rw [buildUserPart] at h
  cases hu : w.user with
  | none =>
    rw [hu] at h
    simp only [] at h
    cases h
    exact fun p hp => hp
  | some u =>
    rw [hu] at h
    simp only [] at h
    cases hra : resolveAxes w.wid u.lookup u.axesNames with
    | error e =>
      rw [hra] at h
      simp only [] at h
      cases h
    | ok wa =>
      rw [hra] at h
      simp only [] at h
      cases hal : affectsLoop w.wid wa
          { st with axisPlotterMap := st.axisPlotterMap ++ wa.map (fun p => (p.2, w.wid)) }
          u.affects with
      | error e =>
        rw [hal] at h
        simp only [] at h
        cases h
      | ok st2 =>
        rw [hal] at h
        simp only [] at h
        intro p hp
        exact requiresLoop_pairs_mono _ _ _ _ _ h p
          (affectsLoop_pairs_mono _ _ _ _ _ hal p hp)

theorem buildStep_pairs_mono {st st' : BuildState} {w : WidgetRec}
    (h : buildStep st w = .ok st') : ∀ p ∈ st.pairs, p ∈ st'.pairs := by
  rw [buildStep] at h
  cases hup : buildUserPart st w with
  | error e =>
    rw [hup] at h
    simp only [] at h
    cases h
  | ok st1 =>
    rw [hup] at h
    simp only [] at h
    cases h
    show ∀ p ∈ st.pairs, p ∈ st1.pairs
    exact buildUserPart_pairs_mono hup

theorem buildList_pairs_mono :
    ∀ (l : List WidgetRec) (st b : BuildState),
      buildList st l = .ok b → ∀ p ∈ st.pairs, p ∈ b.pairs := by
  intro l
  induction l with
  | nil =>
    intro st b h p hp
    cases h
    exact hp
  | cons w ws ih =>
    intro st b h p hp
    rw [buildList] at h
    cases hstep : buildStep st w with
    | error e =>
      rw [hstep] at h
      simp only [] at h
      cases h
    | ok st1 =>
      rw [hstep] at h
      simp only [] at h
      exact ih st1 b h p (buildStep_pairs_mono hstep p hp)

theorem affectsLoop_pairs_mem (wid : Nat) (wa : List (String × Nat)) :
    ∀ (l : List (String × String)) (st st' : BuildState),
      affectsLoop wid wa st l = .ok st' →
      ∀ axname depname ax, (axname, depname) ∈ l → lookupStr wa axname = some ax →
        ((wid, some depname), (ax, none)) ∈ st'.pairs := by
  intro l
  induction l with
  | nil =>
    intro st st' _ axname depname ax hmem _
    cases hmem
  | cons x rest ih =>
    intro st st' h axname depname ax hmem hax
    obtain ⟨an, dn⟩ := x
    rw [affectsLoop] at h
    cases hlk : lookupStr wa an with
    | none =>
      rw [hlk] at h
      simp only [] at h
      cases h
    | some a =>
      rw [hlk] at h
      simp only [] at h
      cases hmem with
      | head =>
        rw [hax] at hlk
        cases hlk
        refine affectsLoop_pairs_mono _ _ _ _ _ h _ ?_
        exact List.mem_append_right _ (List.mem_singleton.mpr rfl)
      | tail _ h2 =>
        exact ih _ _ h axname depname ax h2 hax

theorem requiresLoop_pairs_mem (wid : Nat) (wa : List (String × Nat)) :
    ∀ (l : List (String × String)) (st st' : BuildState),
      requiresLoop wid wa st l = .ok st' →
      ∀ depname axname ax, (depname, axname) ∈ l → lookupStr wa axname = some ax →
        ((ax, none), (wid, some depname)) ∈ st'.pairs := by
  intro l
  induction l with
  | nil =>
    intro st st' _ depname axname ax hmem _
    cases hmem
  | cons x rest ih =>
    intro st st' h depname axname ax hmem hax
    obtain ⟨dn, an⟩ := x
    rw [requiresLoop] at h
    cases hlk : lookupStr wa an with
    | none =>
      rw [hlk] at h
      simp only [] at h
      cases h
    | some a =>
      rw [hlk] at h
      simp only [] at h
      cases hmem with
      | head =>
        rw [hax] at hlk
        cases hlk
        refine requiresLoop_pairs_mono _ _ _ _ _ h _ ?_
        exact List.mem_append_right _ (List.mem_singleton.mpr rfl)
      | tail _ h2 =>
        exact ih _ _ h depname axname ax h2 hax

theorem buildUserPart_mem_affects {st st' : BuildState} {w : WidgetRec} {u : AxisUserData}
    {wa : List (String × Nat)} {axname depname : String} {ax : Nat}
    (h : buildUserPart st w = .ok st') (hu : w.user = some u)
    (hra : resolveAxes w.wid u.lookup u.axesNames = .ok wa)
    (hmem : (axname, depname) ∈ u.affects) (hax : lookupStr wa axname = some ax) :
    ((w.wid, some depname), (ax, none)) ∈ st'.pairs := by
  rw [buildUserPart, hu] at h
  simp only [] at h
  rw [hra] at h
  simp only [] at h
  cases hal : affectsLoop w.wid wa
      { st with axisPlotterMap := st.axisPlotterMap ++ wa.map (fun p => (p.2, w.wid)) }
      u.affects with
  | error e =>
    rw [hal] at h
    simp only [] at h
    cases h
  | ok st2 =>
    rw [hal] at h
    simp only [] at h
    exact requiresLoop_pairs_mono _ _ _ _ _ h _
      (affectsLoop_pairs_mem _ _ _ _ _ hal axname depname ax hmem hax)

theorem buildUserPart_mem_requires {st st' : BuildState} {w : WidgetRec} {u : AxisUserData}
    {wa : List (String × Nat)} {depname axname : String} {ax : Nat}
    (h : buildUserPart st w = .ok st') (hu : w.user = some u)
    (hra : resolveAxes w.wid u.lookup u.axesNames = .ok wa)
    (hmem : (depname, axname) ∈ u.requiresR) (hax : lookupStr wa axname = some ax) :
    ((ax, none), (w.wid, some depname)) ∈ st'.pairs := by
  rw [buildUserPart, hu] at h
  simp only [] at h
  rw [hra] at h
  simp only [] at h
  cases hal : affectsLoop w.wid wa
      { st with axisPlotterMap := st.axisPlotterMap ++ wa.map (fun p => (p.2, w.wid)) }
      u.affects with
  | error e =>
    rw [hal] at h
    simp only [] at h
    cases h
  | ok st2 =>
    rw [hal] at h
    simp only [] at h
    exact requiresLoop_pairs_mem _ _ _ _ _ h depname axname ax hmem hax

theorem buildStep_pairs_eq_userPart {st st1 st' : BuildState} {w : WidgetRec}
    (h : buildStep st w = .ok st') (hup : buildUserPart st w = .ok st1) :
    st'.pairs = st1.pairs := by
  rw [buildStep, hup] at h
  simp only [] at h
  cases h
  rfl

theorem build_mem_affects :
    ∀ (l : List WidgetRec) (st b : BuildState) (w : WidgetRec) (u : AxisUserData)
      (axname depname : String) (wa : List (String × Nat)) (ax : Nat),
      buildList st l = .ok b → w ∈ l → w.user = some u →
      (axname, depname) ∈ u.affects →
      resolveAxes w.wid u.lookup u.axesNames = .ok wa →
      lookupStr wa axname = some ax →
      ((w.wid, some depname), (ax, none)) ∈ b.pairs := by
  intro l
  induction l with
  | nil =>
    intro st b w u axname depname wa ax _ hmem
    cases hmem
  | cons w0 ws ih =>
    intro st b w u axname depname wa ax h hmem hu haff hra hax
    rw [buildList] at h
    cases hstep : buildStep st w0 with
    | error e =>
      rw [hstep] at h
      simp only [] at h
      cases h
    | ok st1 =>
      rw [hstep] at h
      simp only [] at h
      have hup : ∀ stx : BuildState, buildStep stx w0 = .ok st1 → ∃ stm, buildUserPart stx w0 = .ok stm := by
        intro stx hsx
        rw [buildStep] at hsx
        cases hup2 : buildUserPart stx w0 with
        | error e =>
          rw [hup2] at hsx
          simp only [] at hsx
          cases hsx
        | ok stm => exact ⟨stm, rfl⟩
      cases hmem with
      | head =>
        obtain ⟨stm, hup2⟩ := hup st hstep
        have hpair := buildUserPart_mem_affects hup2 hu hra haff hax
        have heq := buildStep_pairs_eq_userPart hstep hup2
        rw [← heq] at hpair
        exact buildList_pairs_mono ws st1 b h _ hpair
      | tail _ h2 =>
        exact ih st1 b w u axname depname wa ax h h2 hu haff hra hax

theorem build_mem_requires :
    ∀ (l : List WidgetRec) (st b : BuildState) (w : WidgetRec) (u : AxisUserData)
      (depname axname : String) (wa : List (String × Nat)) (ax : Nat),
      buildList st l = .ok b → w ∈ l → w.user = some u →
      (depname, axname) ∈ u.requiresR →
      resolveAxes w.wid u.lookup u.axesNames = .ok wa →
      lookupStr wa axname = some ax →
      ((ax, none), (w.wid, some depname)) ∈ b.pairs := by
  intro l
  induction l with
  | nil =>
    intro st b w u depname axname wa ax _ hmem
    cases hmem
  | cons w0 ws ih =>
    intro st b w u depname axname wa ax h hmem hu hreq hra hax
    rw [buildList] at h
    cases hstep : buildStep st w0 with
    | error e =>
      rw [hstep] at h
      simp only [] at h
      cases h
    | ok st1 =>
      rw [hstep] at h
      simp only [] at h
      have hup : ∀ stx : BuildState, buildStep stx w0 = .ok st1 → ∃ stm, buildUserPart stx w0 = .ok stm := by
        intro stx hsx
        rw [buildStep] at hsx
        cases hup2 : buildUserPart stx w0 with
        | error e =>
          rw [hup2] at hsx
          simp only [] at hsx
          cases hsx
        | ok stm => exact ⟨stm, rfl⟩
      cases hmem with
      | head =>
        obtain ⟨stm, hup2⟩ := hup st hstep
        have hpair := buildUserPart_mem_requires hup2 hu hra hreq hax
        have heq := buildStep_pairs_eq_userPart hstep hup2
        rw [← heq] at hpair
        exact buildList_pairs_mono ws st1 b h _ hpair
      | tail _ h2 =>
        exact ih st1 b w u depname axname wa ax h h2 hu hreq hra hax

/-- C2: every declared range contribution `(axname, depname)` of a visited
axis-user widget produces the directed edge (widget-aspect → axis) in
`self.pairs`, every declared range requirement produces the edge
(axis → widget-aspect), and consequently on `c2tree` — plotter 2 requires
axis 1's range, axis 1 depends on nothing — the evaluation order
`utils.topsort(self.pairs)` processes axis 1's node before plotter 2's
node. -/
theorem c2_edge_emission_and_order :
    (∀ (tree : List WidgetRec) (b : BuildState) (w : WidgetRec) (u : AxisUserData)
        (axname depname : String) (wa : List (String × Nat)) (ax : Nat),
        buildList initBuild tree = .ok b → w ∈ tree → w.user = some u →
        (axname, depname) ∈ u.affects →
        resolveAxes w.wid u.lookup u.axesNames = .ok wa →
        lookupStr wa axname = some ax →
        ((w.wid, some depname), (ax, none)) ∈ b.pairs) ∧
    (∀ (tree : List WidgetRec) (b : BuildState) (w : WidgetRec) (u : AxisUserData)
        (depname axname : String) (wa : List (String × Nat)) (ax : Nat),
        buildList initBuild tree = .ok b → w ∈ tree → w.user = some u →
        (depname, axname) ∈ u.requiresR →
        resolveAxes w.wid u.lookup u.axesNames = .ok wa →
        lookupStr wa axname = some ax →
        ((ax, none), (w.wid, some depname)) ∈ b.pairs) ∧
    topsortTree c2tree = .ok [((1 : Nat), (none : Option String)), (2, some "sy")] :=
  ⟨fun tree b w u axname depname wa ax h h1 h2 h3 h4 h5 =>
      build_mem_affects tree initBuild b w u axname depname wa ax h h1 h2 h3 h4 h5,
   fun tree b w u depname axname wa ax h h1 h2 h3 h4 h5 =>
      build_mem_requires tree initBuild b w u depname axname wa ax h h1 h2 h3 h4 h5,
   rfl⟩

/-- Witness for C2 at the concrete tree `c2wTree` (plotter 2 affects axis 1
through aspect `sx` and requires it through aspect `sy`). -/
theorem c2_edge_emission_witness :
    buildList initBuild c2wTree = .ok c2wOut ∧
      (((2 : Nat), some "sx"), ((1 : Nat), (none : Option String))) ∈ c2wOut.pairs ∧
      (((1 : Nat), (none : Option String)), ((2 : Nat), some "sy")) ∈ c2wOut.pairs := by
  refine ⟨rfl, ?_, ?_⟩
  · exact c2_edge_emission_and_order.1 c2wTree c2wOut
      (mkUser 2 ["x"] [("x", 1)] [("x", "sx")] [("sy", "x")] [] none)
      ⟨["x"], [("x", 1)], [("x", "sx")], [("sy", "x")], []⟩
      "x" "sx" [("x", 1)] 1 rfl (by decide) rfl (by decide) rfl rfl
  · exact c2_edge_emission_and_order.2.1 c2wTree c2wOut
      (mkUser 2 ["x"] [("x", 1)] [("x", "sx")] [("sy", "x")] [] none)
      ⟨["x"], [("x", 1)], [("x", "sx")], [("sy", "x")], []⟩
      "sy" "x" [("x", 1)] 1 rfl (by decide) rfl (by decide) rfl rfl

/-- C8 amended: a `lookupAxis` failure does surface as a distinct
unresolved-reference error, but it aborts the *entire* pass: whatever widgets
follow the failing one (`ws` is arbitrary) are never traversed and no axis
receives any range. -/
theorem c8_amended_error_aborts_everything (pre : List WidgetRec) (w : WidgetRec)
    (ws : List WidgetRec) (st : BuildState) (e : RErr)
    (hpre : buildList initBuild pre = .ok st) (hw : buildStep st w = .error e) :
    fullRun (pre ++ w :: ws) = { events := [], err := some e } := by
  have hall : buildList initBuild (pre ++ w :: ws) = .error e := by
    rw [buildList_append, hpre]
    simp only [buildList, hw]
  rw [fullRun, hall]

/-- Witness for the C8 amended theorem at a concrete input: the failing
widget aborts the pass even though another axis follows it. -/
theorem c8_amended_witness :
    buildList initBuild [mkAxis 1] = .ok { deps := [], axes := [1], axisPlotterMap := [], pairs := [] } ∧
      buildStep { deps := [], axes := [1], axisPlotterMap := [], pairs := [] } c8badWidget =
        .error (RErr.unresolvedAxis 2 "x") ∧
      fullRun ([mkAxis 1] ++ c8badWidget :: [mkAxis 5]) =
        { events := [], err := some (RErr.unresolvedAxis 2 "x") } :=
  ⟨rfl, rfl, c8_amended_error_aborts_everything [mkAxis 1] c8badWidget [mkAxis 5] _ _ rfl rfl⟩

/-- C1: the claim asserts that every resolution pass on a tree with a cyclic
dependency graph completes without raising.  The code violates this: on
`c1cycleTree` (plotter 2 both affects and requires axis 1 through one aspect,
giving the mutual edges shown in the second conjunct) axis 1 is finalized
first, deleted from `self.ranges`, and the subsequent
`self.ranges[widget]` access in `processDepends` raises `KeyError`, aborting
the draw.  This contradicts the spec's "no hard failure path". -/
theorem c1_cycle_raises_keyError :
    (fullRun c1cycleTree).err = some RErr.keyError ∧
      pairsOfTree c1cycleTree =
        [((2, some "s"), (1, none)), ((1, none), (2, some "s"))] :=
  ⟨rfl, rfl⟩

/-- C6: axis 1 with two visible plotters contributing `[0, 10]` and `[5, 20]`
resolves to the widened range `(0, 20)` (min of mins, max of maxes). -/
theorem c6_two_visible_plotters_widen :
    resultsOf (fullRun c6tree) = [(1, some (0, 20))] := rfl

/-- C8 counterexample: on `c8tree` the unresolved axis name of widget 2
aborts the entire pass — no event happens, and axis 3 (fed by plotter 4,
which the claim says should still resolve to `(0, 10)`) receives no range at
all. -/
theorem c8_counterexample_whole_pass_aborts :
    fullRun c8tree = { events := [], err := some (RErr.unresolvedAxis 2 "x") } ∧
      resultsOf (fullRun c8tree) = [] :=
  ⟨rfl, rfl⟩

end VeuszPage

namespace VeuszPage

/-! ### Trace well-formedness machinery (for the finalize-once invariant) -/

theorem collectFin_append (xs ys : List REvent) :
    ∀ d : List Nat, collectFin d (xs ++ ys) = collectFin (collectFin d xs) ys := by
  induction xs with
  | nil => intro d; rfl
  | cons e r ih =>
    intro d
    cases e with
    | contrib a w dn nr =>
      rw [List.cons_append, collectFin, collectFin]
      exact ih d
    | finalize a acc v =>
      rw [List.cons_append, collectFin, collectFin]
      exact ih (a :: d)

theorem eventsOkAux_append (xs ys : List REvent) :
    ∀ d : List Nat,
      eventsOkAux d (xs ++ ys) = (eventsOkAux d xs && eventsOkAux (collectFin d xs) ys) := by
  induction xs with
  | nil => intro d; rfl
  | cons e r ih =>
    intro d
    cases e with
    | contrib a w dn nr =>
      rw [List.cons_append, eventsOkAux, eventsOkAux, collectFin, ih d, Bool.and_assoc]
    | finalize a acc v =>
      rw [List.cons_append, eventsOkAux, eventsOkAux, collectFin, ih (a :: d), Bool.and_assoc]

theorem mem_collectFin (xs : List REvent) :
    ∀ (d : List Nat) (a : Nat), a ∈ collectFin d xs ↔ a ∈ d ∨ a ∈ finSet xs := by
  induction xs with
  | nil =>
    intro d a
    rw [collectFin, finSet]
    simp
  | cons e r ih =>
    intro d a
    cases e with
    | contrib _ _ _ _ =>
      rw [collectFin, finSet]
      exact ih d a
    | finalize b acc v =>
      rw [collectFin, finSet, ih (b :: d) a]
      simp only [List.mem_cons]
      tauto

theorem mem_keysOf_of_mem {α : Type} {l : List (Nat × α)} {p : Nat × α}
    (h : p ∈ l) : p.1 ∈ keysOf l := by
  induction l with
  | nil => cases h
  | cons q t ih =>
    rw [keysOf]
    cases h with
    | head => exact List.mem_cons_self _ _
    | tail _ h2 => exact List.mem_cons_of_mem _ (ih h2)

theorem keysOf_map_pair {α : Type} (v : α) (l : List Nat) :
    keysOf (l.map (fun a => (a, v))) = l := by
  induction l with
  | nil => rfl
  | cons x xs ih => rw [List.map_cons, keysOf, ih]

theorem invP_contribPart (tbl : List WidgetRec) (dep wd : Node) (st : PState)
    (h : InvP st) : InvP (contribPart tbl dep wd st) := by
  rw [contribPart]
  cases findWidget tbl wd.1 with
  | none => exact h
  | some w =>
    simp only []
    cases w.user with
    | none => exact h
    | some u =>
      simp only []
      by_cases hh : hideOk w.hide = true
      · rw [if_pos hh]
        cases hlk : lookupNat st.ranges dep.1 with
        | none =>
          simp only []
          exact h
        | some r =>
          simp only []
          obtain ⟨h1, h2, h3⟩ := h
          have hmem : dep.1 ∈ keysOf st.ranges := lookupNat_isSome_mem_keys hlk
          have hnc : dep.1 ∉ collectFin [] st.events := fun hc => h2 dep.1 hc hmem
          refine ⟨?_, ?_, ?_⟩
          · show eventsOkAux [] (st.events ++ [_]) = true
            rw [eventsOkAux_append]
            rw [eventsOk] at h1
            rw [h1]
            rw [Bool.true_and, eventsOkAux, eventsOkAux]
            simp [hnc]
          · intro a ha
            rw [collectFin_append] at ha
            rw [collectFin, collectFin] at ha
            rw [keysOf_setNat]
            exact h2 a ha
          · rw [keysOf_setNat]
            exact h3
      · rw [if_neg hh]
        exact h

theorem invP_finalizePart (tbl : List WidgetRec) (wd : Node) (st : PState)
    (h : InvP st) : InvP (finalizePart tbl wd st) := by
  rw [finalizePart]
  cases findWidget tbl wd.1 with
  | none => exact h
  | some w =>
    simp only []
    by_cases hax : w.isaxis = true
    · rw [if_pos hax]
      cases hlk : lookupNat st.ranges wd.1 with
      | none =>
        simp only []
        exact h
      | some axr =>
        simp only []
        obtain ⟨h1, h2, h3⟩ := h
        have hmem : wd.1 ∈ keysOf st.ranges := lookupNat_isSome_mem_keys hlk
        have hnc : wd.1 ∉ collectFin [] st.events := fun hc => h2 wd.1 hc hmem
        refine ⟨?_, ?_, ?_⟩
        · show eventsOkAux [] (st.events ++ [_]) = true
          rw [eventsOkAux_append]
          rw [eventsOk] at h1
          rw [h1]
          rw [Bool.true_and, eventsOkAux, eventsOkAux]
          simp [hnc]
        · intro a ha
          rw [collectFin_append] at ha
          rw [collectFin, collectFin] at ha
          intro hk
          rw [mem_keysOf_delNat] at hk
          cases List.mem_cons.mp ha with
          | inl hwa => exact hk.2 hwa
          | inr hca => exact h2 a hca hk.1
        · exact keysOf_delNat_nodup _ _ h3
    · rw [if_neg hax]
      exact h

theorem invP_procPair (tbl : List WidgetRec) (dep wd : Node) (st : PState)
    (h : InvP st) : InvP (procPair tbl dep wd st) := by
  rw [procPair]
  by_cases he : st.err.isSome = true
  · rw [if_pos he]
    exact h
  · rw [if_neg he]
    by_cases he2 : (contribPart tbl dep wd st).err.isSome = true
    · rw [if_pos he2]
      exact invP_contribPart tbl dep wd st h
    · rw [if_neg he2]
      exact invP_finalizePart tbl wd _ (invP_contribPart tbl dep wd st h)

theorem invP_procNode (tbl : List WidgetRec) (dep : Node) :
    ∀ (l : List Node) (st : PState), InvP st →
      InvP (l.foldl (fun s wd => procPair tbl dep wd s) st) := by
  intro l
  induction l with
  | nil =>
    intro st h
    exact h
  | cons wd rest ih =>
    intro st h
    rw [List.foldl_cons]
    exact ih _ (invP_procPair tbl dep wd st h)

theorem invP_nodeFold (tbl : List WidgetRec) (deps : List (Node × Node)) :
    ∀ (l : List Node) (st : PState), InvP st →
      InvP (l.foldl (procNode tbl deps) st) := by
  intro l
  induction l with
  | nil =>
    intro st h
    exact h
  | cons dep rest ih =>
    intro st h
    rw [List.foldl_cons]
    refine ih _ ?_
    rw [procNode]
    exact invP_procNode tbl dep _ st h

theorem eventsOk_finalizeLeft :
    ∀ (l : List (Nat × Range)) (st : PState),
      eventsOk st.events = true →
      (∀ p ∈ l, p.1 ∉ collectFin [] st.events) →
      (keysOf l).Nodup →
      eventsOk (finalizeLeft l st).events = true := by
  intro l
  induction l with
  | nil =>
    intro st h1 _ _
    exact h1
  | cons p t ih =>
    intro st h1 h2 h3
    simp only [finalizeLeft] at ih ⊢
    rw [List.foldl_cons]
    have hp : p.1 ∉ collectFin [] st.events := h2 p (List.mem_cons_self p t)
    refine ih _ ?_ ?_ ?_
    · show eventsOkAux [] (st.events ++ [_]) = true
      rw [eventsOkAux_append]
      rw [eventsOk] at h1
      rw [h1]
      rw [Bool.true_and, eventsOkAux, eventsOkAux]
      simp [hp]
    · intro q hq
      show q.1 ∉ collectFin [] (st.events ++ [_])
      rw [collectFin_append, collectFin, collectFin]
      intro hc
      cases List.mem_cons.mp hc with
      | inl hqp =>
        rw [keysOf] at h3
        have := List.nodup_cons.mp h3
        exact this.1 (hqp ▸ mem_keysOf_of_mem hq)
      | inr hcc =>
        exact h2 q (List.mem_cons_of_mem _ hq) hcc
    · rw [keysOf] at h3
      exact (List.nodup_cons.mp h3).2

/-- C3: in every full resolution pass (successful or aborted), each axis is
finalized (`setAutoRange`) at most once, and no widget-aspect contributes
range information to an axis after that axis was finalized and removed from
the pending dictionary: the event trace passes the `eventsOk` scan. -/
theorem c3_finalize_once_no_late_contribution (tree : List WidgetRec) :
    eventsOk (fullRun tree).events = true := by
  rw [fullRun]
  cases hb : buildList initBuild tree with
  | error e => rfl
  | ok b =>
    simp only [findAxisRanges]
    have hInv : InvP (processDepends tree b.deps b.pairs
        { ranges := (firstDedup b.axes).map (fun a => (a, defaultrange)),
          events := [], err := none }) := by
      rw [processDepends]
      refine invP_nodeFold tree b.deps (topsort b.pairs) _ ?_
      refine ⟨rfl, ?_, ?_⟩
      · intro a ha
        cases ha
      · show (keysOf ((firstDedup b.axes).map (fun a => (a, defaultrange)))).Nodup
        rw [keysOf_map_pair]
        exact firstDedup_nodup _
    obtain ⟨h1, h2, h3⟩ := hInv
    by_cases he : (processDepends tree b.deps b.pairs
        { ranges := (firstDedup b.axes).map (fun a => (a, defaultrange)),
          events := [], err := none }).err.isSome = true
    · rw [if_pos he]
      exact h1
    · rw [if_neg he]
      refine eventsOk_finalizeLeft _ _ h1 ?_ h3
      intro p hp hc
      exact h2 p.1 hc (mem_keysOf_of_mem hp)

end VeuszPage

namespace VeuszPage

/-! ### The leftover finalization loop as an event append -/

theorem finalizeLeft_eq (l : List (Nat × Range)) :
    ∀ st : PState, finalizeLeft l st = { st with events := st.events ++ finEventsOf l } := by
  induction l with
  | nil =>
    intro st
    simp [finalizeLeft, finEventsOf]
  | cons p t ih =>
    intro st
    simp only [finalizeLeft, List.foldl_cons] at ih ⊢
    rw [ih]
    simp [finEventsOf, List.append_assoc]

theorem resultsList_append (xs ys : List REvent) :
    resultsList (xs ++ ys) = resultsList xs ++ resultsList ys := by
  induction xs with
  | nil => rfl
  | cons e r ih =>
    cases e with
    | contrib a w dn nr =>
      rw [List.cons_append, resultsList, resultsList, ih]
    | finalize a acc v =>
      rw [List.cons_append, resultsList, resultsList, ih, List.cons_append]

theorem mem_resultsList_finEventsOf {l : List (Nat × Range)} {p : Nat × Range}
    (h : p ∈ l) :
    (p.1, if p.2 = defaultrange then none else some p.2) ∈ resultsList (finEventsOf l) := by
  induction l with
  | nil => cases h
  | cons q t ih =>
    rw [finEventsOf, List.map_cons, resultsList]
    cases h with
    | head => exact List.mem_cons_self _ _
    | tail _ h2 =>
      rw [finEventsOf] at ih
      exact List.mem_cons_of_mem _ (ih h2)

theorem resultsList_finEventsOf_sentinel (l : List Nat) :
    resultsList (finEventsOf (l.map (fun x => (x, defaultrange)))) =
      l.map (fun x => (x, (none : Option Range))) := by
  induction l with
  | nil => rfl
  | cons x xs ih =>
    rw [List.map_cons, finEventsOf, List.map_cons, resultsList, List.map_cons]
    rw [finEventsOf] at ih
    rw [ih, if_pos rfl]

/-! ### Topological-order membership -/

theorem mem_eraseNode : ∀ (l : List Node) (x y : Node), y ∈ eraseNode l x → y ∈ l := by
  intro l
  induction l with
  | nil =>
    intro x y h
    cases h
  | cons z t ih =>
    intro x y h
    rw [eraseNode] at h
    by_cases hz : z = x
    · rw [if_pos hz] at h
      exact List.mem_cons_of_mem _ h
    · rw [if_neg hz] at h
      cases h with
      | head => exact List.mem_cons_self _ _
      | tail _ h2 => exact List.mem_cons_of_mem _ (ih x y h2)

theorem mem_kahnLoop (pairs : List (Node × Node)) :
    ∀ (fuel : Nat) (rem : List Node) (x : Node), x ∈ kahnLoop pairs fuel rem → x ∈ rem := by
  intro fuel
  induction fuel with
  | zero =>
    intro rem x h
    exact h
  | succ n ih =>
    intro rem x h
    rw [kahnLoop] at h
    cases hf : rem.find? (fun y => ! hasIncoming pairs rem y) with
    | none =>
      rw [hf] at h
      exact h
    | some y =>
      rw [hf] at h
      cases h with
      | head => exact List.mem_of_find?_eq_some hf
      | tail _ h2 => exact mem_eraseNode rem y x (ih _ x h2)

theorem mem_nodePool :
    ∀ (l : List (Node × Node)) (x : Node), x ∈ nodePool l → ∃ p, p ∈ l ∧ (x = p.1 ∨ x = p.2) := by
  intro l
  induction l with
  | nil =>
    intro x h
    cases h
  | cons p t ih =>
    intro x h
    rw [nodePool] at h
    cases h with
    | head => exact ⟨p, List.mem_cons_self p t, Or.inl rfl⟩
    | tail _ h2 =>
      cases h2 with
      | head => exact ⟨p, List.mem_cons_self p t, Or.inr rfl⟩
      | tail _ h3 =>
        obtain ⟨q, hq, hx⟩ := ih x h3
        exact ⟨q, List.mem_cons_of_mem _ hq, hx⟩

theorem mem_topsort_mention (pairs : List (Node × Node)) (x : Node)
    (h : x ∈ topsort pairs) : ∃ p, p ∈ pairs ∧ (x = p.1 ∨ x = p.2) := by
  rw [topsort] at h
  have h2 := mem_kahnLoop pairs _ _ x h
  rw [nodesOf, mem_firstDedup] at h2
  exact mem_nodePool pairs x h2

theorem mem_depsOf :
    ∀ (deps : List (Node × Node)) (k wd : Node), wd ∈ depsOf deps k → (k, wd) ∈ deps := by
  intro deps
  induction deps with
  | nil =>
    intro k wd h
    cases h
  | cons q t ih =>
    intro k wd h
    rw [depsOf] at h
    by_cases hq : q.1 = k
    · rw [if_pos hq] at h
      cases h with
      | head =>
        have hqk : q = (k, q.2) := by
          cases q
          cases hq
          rfl
        rw [← hqk]
        exact List.mem_cons_self q t
      | tail _ h2 => exact List.mem_cons_of_mem _ (ih k wd h2)
    · rw [if_neg hq] at h
      exact List.mem_cons_of_mem _ (ih k wd h)

/-! ### `deps` mirrors `pairs` with the components swapped -/

theorem affectsLoop_swap (wid : Nat) (wa : List (String × Nat)) :
    ∀ (l : List (String × String)) (st st' : BuildState),
      affectsLoop wid wa st l = .ok st' →
      st.deps = st.pairs.map (fun p => (p.2, p.1)) →
      st'.deps = st'.pairs.map (fun p => (p.2, p.1)) := by
  intro l
  induction l with
  | nil =>
    intro st st' h hs
    cases h
    exact hs
  | cons x rest ih =>
    intro st st' h hs
    obtain ⟨axname, depname⟩ := x
    rw [affectsLoop] at h
    cases hlk : lookupStr wa axname with
    | none =>
      rw [hlk] at h
      simp only [] at h
      cases h
    | some a =>
      rw [hlk] at h
      simp only [] at h
      refine ih _ _ h ?_
      show st.deps ++ [((a, none), (wid, some depname))] =
        (st.pairs ++ [((wid, some depname), (a, none))]).map
          (fun p : Node × Node => (p.2, p.1))
      rw [List.map_append, ← hs]
      rfl

theorem requiresLoop_swap (wid : Nat) (wa : List (String × Nat)) :
    ∀ (l : List (String × String)) (st st' : BuildState),
      requiresLoop wid wa st l = .ok st' →
      st.deps = st.pairs.map (fun p => (p.2, p.1)) →
      st'.deps = st'.pairs.map (fun p => (p.2, p.1)) := by
  intro l
  induction l with
  | nil =>
    intro st st' h hs
    cases h
    exact hs
  | cons x rest ih =>
    intro st st' h hs
    obtain ⟨depname, axname⟩ := x
    rw [requiresLoop] at h
    cases hlk : lookupStr wa axname with
    | none =>
      rw [hlk] at h
      simp only [] at h
      cases h
    | some a =>
      rw [hlk] at h
      simp only [] at h
      refine ih _ _ h ?_
      show st.deps ++ [((wid, some depname), (a, none))] =
        (st.pairs ++ [((a, none), (wid, some depname))]).map
          (fun p : Node × Node => (p.2, p.1))
      rw [List.map_append, ← hs]
      rfl

theorem buildUserPart_swap {st st' : BuildState} {w : WidgetRec}
    (h : buildUserPart st w = .ok st')
    (hs : st.deps = st.pairs.map (fun p => (p.2, p.1))) :
    st'.deps = st'.pairs.map (fun p => (p.2, p.1)) := by
  rw [buildUserPart] at h
  cases hu : w.user with
  | none =>
    rw [hu] at h
    simp only [] at h
    cases h
    exact hs
  | some u =>
    rw [hu] at h
    simp only [] at h
    cases hra : resolveAxes w.wid u.lookup u.axesNames with
    | error e =>
      rw [hra] at h
      simp only [] at h
      cases h
    | ok wa =>
      rw [hra] at h
      simp only [] at h
      cases hal : affectsLoop w.wid wa
          { st with axisPlotterMap := st.axisPlotterMap ++ wa.map (fun p => (p.2, w.wid)) }
          u.affects with
      | error e =>
        rw [hal] at h
        simp only [] at h
        cases h
      | ok st2 =>
        rw [hal] at h
        simp only [] at h
        exact requiresLoop_swap _ _ _ _ _ h (affectsLoop_swap _ _ _ _ _ hal hs)

theorem buildStep_swap {st st' : BuildState} {w : WidgetRec}
    (h : buildStep st w = .ok st')
    (hs : st.deps = st.pairs.map (fun p => (p.2, p.1))) :
    st'.deps = st'.pairs.map (fun p => (p.2, p.1)) := by
  rw [buildStep] at h
  cases hup : buildUserPart st w with
  | error e =>
    rw [hup] at h
    simp only [] at h
    cases h
  | ok st1 =>
    rw [hup] at h
    simp only [] at h
    cases h
    show st1.deps = st1.pairs.map (fun p => (p.2, p.1))
    exact buildUserPart_swap hup hs

theorem buildList_swap :
    ∀ (l : List WidgetRec) (st b : BuildState),
      buildList st l = .ok b →
      st.deps = st.pairs.map (fun p => (p.2, p.1)) →
      b.deps = b.pairs.map (fun p => (p.2, p.1)) := by
  intro l
  induction l with
  | nil =>
    intro st b h hs
    cases h
    exact hs
  | cons w ws ih =>
    intro st b h hs
    rw [buildList] at h
    cases hstep : buildStep st w with
    | error e =>
      rw [hstep] at h
      simp only [] at h
      cases h
    | ok st1 =>
      rw [hstep] at h
      simp only [] at h
      exact ih st1 b h (buildStep_swap hstep hs)

theorem build_deps_swap {tree : List WidgetRec} {b : BuildState}
    (h : buildList initBuild tree = .ok b) :
    b.deps = b.pairs.map (fun p => (p.2, p.1)) :=
  buildList_swap tree initBuild b h rfl

/-! ### An axis mentioned by no edge keeps its untouched accumulator -/

theorem contribPart_ranges_at (tbl : List WidgetRec) (dep wd : Node) (st : PState) (a : Nat)
    (hd : ¬ dep.1 = a) :
    lookupNat (contribPart tbl dep wd st).ranges a = lookupNat st.ranges a := by
  rw [contribPart]
  cases findWidget tbl wd.1 with
  | none => rfl
  | some w =>
    simp only []
    cases w.user with
    | none => rfl
    | some u =>
      simp only []
      by_cases hh : hideOk w.hide = true
      · rw [if_pos hh]
        cases lookupNat st.ranges dep.1 with
        | none => rfl
        | some r =>
          simp only []
          exact lookupNat_setNat_ne st.ranges dep.1 a _ (fun hc => hd hc.symm)
      · rw [if_neg hh]

theorem finalizePart_ranges_at (tbl : List WidgetRec) (wd : Node) (st : PState) (a : Nat)
    (hw : ¬ wd.1 = a) :
    lookupNat (finalizePart tbl wd st).ranges a = lookupNat st.ranges a := by
  rw [finalizePart]
  cases findWidget tbl wd.1 with
  | none => rfl
  | some w =>
    simp only []
    by_cases hax : w.isaxis = true
    · rw [if_pos hax]
      cases lookupNat st.ranges wd.1 with
      | none => rfl
      | some axr =>
        simp only []
        exact lookupNat_delNat_ne st.ranges wd.1 a (fun hc => hw hc.symm)
    · rw [if_neg hax]

theorem procPair_ranges_at (tbl : List WidgetRec) (dep wd : Node) (st : PState) (a : Nat)
    (hd : ¬ dep.1 = a) (hw : ¬ wd.1 = a) :
    lookupNat (procPair tbl dep wd st).ranges a = lookupNat st.ranges a := by
  rw [procPair]
  by_cases he : st.err.isSome = true
  · rw [if_pos he]
  · rw [if_neg he]
    by_cases he2 : (contribPart tbl dep wd st).err.isSome = true
    · rw [if_pos he2]
      exact contribPart_ranges_at tbl dep wd st a hd
    · rw [if_neg he2]
      rw [finalizePart_ranges_at tbl wd _ a hw]
      exact contribPart_ranges_at tbl dep wd st a hd

theorem procNodeFold_ranges_at (tbl : List WidgetRec) (dep : Node) (a : Nat)
    (hd : ¬ dep.1 = a) :
    ∀ (l : List Node) (st : PState), (∀ wd ∈ l, ¬ wd.1 = a) →
      lookupNat ((l.foldl (fun s wd => procPair tbl dep wd s) st).ranges) a =
        lookupNat st.ranges a := by
  intro l
  induction l with
  | nil =>
    intro st _
    rfl
  | cons wd rest ih =>
    intro st hws
    rw [List.foldl_cons]
    rw [ih _ (fun x hx => hws x (List.mem_cons_of_mem _ hx))]
    exact procPair_ranges_at tbl dep wd st a hd (hws wd (List.mem_cons_self _ _))

theorem processFold_ranges_at (tbl : List WidgetRec) (deps : List (Node × Node)) (a : Nat)
    (hq : ∀ q ∈ deps, ¬ q.2.1 = a) :
    ∀ (l : List Node) (st : PState), (∀ dep ∈ l, ¬ dep.1 = a) →
      lookupNat ((l.foldl (procNode tbl deps) st).ranges) a = lookupNat st.ranges a := by
  intro l
  induction l with
  | nil =>
    intro st _
    rfl
  | cons dep rest ih =>
    intro st hds
    rw [List.foldl_cons]
    rw [ih _ (fun x hx => hds x (List.mem_cons_of_mem _ hx))]
    rw [procNode]
    refine procNodeFold_ranges_at tbl dep a (hds dep (List.mem_cons_self _ _)) _ st ?_
    intro wd hwd
    exact hq (dep, wd) (mem_depsOf deps dep wd hwd)

/-! ### Every finalization has the sentinel-to-automatic shape -/

theorem finShape_contribPart (tbl : List WidgetRec) (dep wd : Node) (st : PState)
    (h : ∀ e ∈ st.events, finShape e) :
    ∀ e ∈ (contribPart tbl dep wd st).events, finShape e := by
  rw [contribPart]
  cases findWidget tbl wd.1 with
  | none => exact h
  | some w =>
    simp only []
    cases w.user with
    | none => exact h
    | some u =>
      simp only []
      by_cases hh : hideOk w.hide = true
      · rw [if_pos hh]
        cases lookupNat st.ranges dep.1 with
        | none => exact h
        | some r =>
          simp only []
          intro e he
          cases List.mem_append.mp he with
          | inl h1 => exact h e h1
          | inr h1 =>
            cases List.mem_singleton.mp h1
            exact trivial
      · rw [if_neg hh]
        exact h

theorem finShape_finalizePart (tbl : List WidgetRec) (wd : Node) (st : PState)
    (h : ∀ e ∈ st.events, finShape e) :
    ∀ e ∈ (finalizePart tbl wd st).events, finShape e := by
  rw [finalizePart]
  cases findWidget tbl wd.1 with
  | none => exact h
  | some w =>
    simp only []
    by_cases hax : w.isaxis = true
    · rw [if_pos hax]
      cases lookupNat st.ranges wd.1 with
      | none => exact h
      | some axr =>
        simp only []
        intro e he
        cases List.mem_append.mp he with
        | inl h1 => exact h e h1
        | inr h1 =>
          cases List.mem_singleton.mp h1
          exact rfl
    · rw [if_neg hax]
      exact h

theorem finShape_procPair (tbl : List WidgetRec) (dep wd : Node) (st : PState)
    (h : ∀ e ∈ st.events, finShape e) :
    ∀ e ∈ (procPair tbl dep wd st).events, finShape e := by
  rw [procPair]
  by_cases he : st.err.isSome = true
  · rw [if_pos he]
    exact h
  · rw [if_neg he]
    by_cases he2 : (contribPart tbl dep wd st).err.isSome = true
    · rw [if_pos he2]
      exact finShape_contribPart tbl dep wd st h
    · rw [if_neg he2]
      exact finShape_finalizePart tbl wd _ (finShape_contribPart tbl dep wd st h)

theorem finShape_procNodeFold (tbl : List WidgetRec) (dep : Node) :
    ∀ (l : List Node) (st : PState), (∀ e ∈ st.events, finShape e) →
      ∀ e ∈ ((l.foldl (fun s wd => procPair tbl dep wd s) st).events), finShape e := by
  intro l
  induction l with
  | nil =>
    intro st h
    exact h
  | cons wd rest ih =>
    intro st h
    rw [List.foldl_cons]
    exact ih _ (finShape_procPair tbl dep wd st h)

theorem finShape_nodeFold (tbl : List WidgetRec) (deps : List (Node × Node)) :
    ∀ (l : List Node) (st : PState), (∀ e ∈ st.events, finShape e) →
      ∀ e ∈ ((l.foldl (procNode tbl deps) st).events), finShape e := by
  intro l
  induction l with
  | nil =>
    intro st h
    exact h
  | cons dep rest ih =>
    intro st h
    rw [List.foldl_cons]
    refine ih _ ?_
    rw [procNode]
    exact finShape_procNodeFold tbl dep _ st h

theorem finShape_finEventsOf (l : List (Nat × Range)) :
    ∀ e ∈ finEventsOf l, finShape e := by
  induction l with
  | nil =>
    intro e he
    cases he
  | cons p t ih =>
    intro e he
    rw [finEventsOf, List.map_cons] at he
    cases he with
    | head => exact rfl
    | tail _ h2 =>
      rw [finEventsOf] at ih
      exact ih e h2

end VeuszPage

namespace VeuszPage

theorem processDepends_nil (tbl : List WidgetRec) (deps : List (Node × Node)) (st : PState) :
    processDepends tbl deps [] st = st := rfl

theorem fullRun_ok {tree : List WidgetRec} {b : BuildState}
    (hb : buildList initBuild tree = .ok b) :
    fullRun tree =
      if (procOut tree b).err.isSome then
        { events := (procOut tree b).events, err := (procOut tree b).err }
      else
        { events := (procOut tree b).events ++ finEventsOf (procOut tree b).ranges,
          err := (procOut tree b).err } := by
  rw [fullRun, hb]
  simp only []
  simp only [findAxisRanges]
  have hPo : processDepends tree b.deps b.pairs
      { ranges := (firstDedup b.axes).map (fun a => (a, defaultrange)),
        events := [], err := none } = procOut tree b := rfl
  rw [hPo]
  by_cases he : (procOut tree b).err.isSome = true
  · rw [if_pos he, if_pos he]
  · rw [if_neg he, if_neg he, finalizeLeft_eq]

theorem procOut_nil {tree : List WidgetRec} {b : BuildState} (hp : b.pairs = []) :
    procOut tree b =
      { ranges := (firstDedup b.axes).map (fun a => (a, defaultrange)),
        events := [], err := none } := by
  rw [procOut, hp, processDepends_nil]

/-- C4 counterexample: on `c4badTree`, axis 1 is in the axes list and touched
by no dependency edge, yet — because the aspect-level cycle on axis 2 aborts
`processDepends` with a `KeyError` before the leftover finalization loop —
axis 1 never resolves at all, contradicting the claim's "for every widget
tree ... every such axis resolves to automatic". -/
theorem c4_counterexample_untouched_axis_unresolved :
    (1 : Nat) ∈ axesOfTree c4badTree ∧
      (pairsOfTree c4badTree).all
        (fun p => ! decide (p.1.1 = 1) && ! decide (p.2.1 = 1)) = true ∧
      lookupNat (resultsOf (fullRun c4badTree)) 1 = none ∧
      (fullRun c4badTree).err = some RErr.keyError := by
  refine ⟨?_, rfl, rfl, rfl⟩
  decide

/-- C4 amended: (1) every `setAutoRange` call resolves an axis whose
accumulator still equals the untouched sentinel to automatic (`None`) and
passes any other accumulator on as the accumulated pair; (2) on a tree with
zero dependency edges every axis resolves to automatic; (3) an axis touched
by no edge resolves to automatic *provided the pass completes without the
cyclic-graph `KeyError`* — without that proviso the claim fails (see the
counterexample). -/
theorem c4_amended_sentinel_and_untouched :
    (∀ (tree : List WidgetRec) (e : REvent), e ∈ (fullRun tree).events → finShape e) ∧
      (∀ (tree : List WidgetRec) (b : BuildState),
        buildList initBuild tree = .ok b → b.pairs = [] →
        resultsOf (fullRun tree) =
          (firstDedup b.axes).map (fun a => (a, (none : Option Range)))) ∧
      (∀ (tree : List WidgetRec) (b : BuildState) (a : Nat),
        buildList initBuild tree = .ok b → a ∈ b.axes →
        (∀ p ∈ b.pairs, ¬ p.1.1 = a ∧ ¬ p.2.1 = a) →
        (fullRun tree).err = none →
        (a, (none : Option Range)) ∈ resultsOf (fullRun tree)) := by
  refine ⟨?_, ?_, ?_⟩
  · intro tree e
    rw [fullRun]
    cases hb : buildList initBuild tree with
    | error e2 =>
      intro he
      cases he
    | ok b =>
      simp only [findAxisRanges]
      have hP : ∀ e2 ∈ (processDepends tree b.deps b.pairs
          { ranges := (firstDedup b.axes).map (fun a => (a, defaultrange)),
            events := [], err := none }).events, finShape e2 := by
        rw [processDepends]
        refine finShape_nodeFold tree b.deps (topsort b.pairs) _ ?_
        intro e2 he2
        cases he2
      by_cases he : (processDepends tree b.deps b.pairs
          { ranges := (firstDedup b.axes).map (fun a => (a, defaultrange)),
            events := [], err := none }).err.isSome = true
      · rw [if_pos he]
        exact hP e
      · rw [if_neg he, finalizeLeft_eq]
        intro he2
        cases List.mem_append.mp he2 with
        | inl h1 => exact hP e h1
        | inr h1 => exact finShape_finEventsOf _ e h1
  · intro tree b hb hp
    rw [fullRun_ok hb, procOut_nil hp]
    rw [if_neg (by simp)]
    show resultsList ([] ++ finEventsOf ((firstDedup b.axes).map (fun a => (a, defaultrange)))) = _
    rw [List.nil_append, resultsList_finEventsOf_sentinel]
  · intro tree b a hb ha hm herr
    rw [fullRun_ok hb] at herr ⊢
    by_cases he : (procOut tree b).err.isSome = true
    · exfalso
      rw [if_pos he] at herr
      simp only [] at herr
      rw [herr] at he
      cases he
    · rw [if_neg he]
      show (a, (none : Option Range)) ∈
        resultsList ((procOut tree b).events ++ finEventsOf (procOut tree b).ranges)
      rw [resultsList_append]
      refine List.mem_append_right _ ?_
      have hlk : lookupNat (procOut tree b).ranges a = some defaultrange := by
        rw [procOut, processDepends]
        rw [processFold_ranges_at tree b.deps a ?_ (topsort b.pairs) _ ?_]
        · exact lookupNat_map_const defaultrange (firstDedup b.axes) a
            ((mem_firstDedup _ a).mpr ha)
        · intro q hq2
          rw [build_deps_swap hb] at hq2
          obtain ⟨p, hp2, hq3⟩ := List.mem_map.mp hq2
          rw [← hq3]
          exact (hm p hp2).1
        · intro dep hdep
          obtain ⟨p, hp2, hor⟩ := mem_topsort_mention _ _ hdep
          cases hor with
          | inl h1 =>
            rw [h1]
            exact (hm p hp2).1
          | inr h1 =>
            rw [h1]
            exact (hm p hp2).2
      have hmem := lookupNat_some_mem hlk
      have hres := mem_resultsList_finEventsOf hmem
      have hif : (if defaultrange = defaultrange then (none : Option Range)
          else some defaultrange) = none := if_pos rfl
      rw [hif] at hres
      exact hres

/-- Witness for the amended C4 at `c4wTree` (two axes, one edge-free
axis-user, no dependency edges): both axes resolve to automatic, through
conjuncts (2) and (3). -/
theorem c4_amended_witness :
    resultsOf (fullRun c4wTree) = [(1, (none : Option Range)), (7, none)] ∧
      ((1 : Nat), (none : Option Range)) ∈ resultsOf (fullRun c4wTree) := by
  constructor
  · exact (c4_amended_sentinel_and_untouched.2.1 c4wTree c4wOut rfl rfl).trans rfl
  · exact c4_amended_sentinel_and_untouched.2.2 c4wTree c4wOut 1 rfl (by decide)
      (by decide) rfl

end VeuszPage

namespace VeuszPage

/-! ### Hidden data and stored ranges do not influence a pass -/

theorem buildUserPart_congr {w1 w2 : WidgetRec} (hw : sameWidget w1 w2 = true)
    (st : BuildState) : buildUserPart st w1 = buildUserPart st w2 := by
  cases hu1 : w1.user with
  | none =>
    cases hu2 : w2.user with
    | none => rw [buildUserPart, buildUserPart, hu1, hu2]
    | some u2 =>
      rw [sameWidget, hu1, hu2] at hw
      simp at hw
  | some u1 =>
    cases hu2 : w2.user with
    | none =>
      rw [sameWidget, hu1, hu2] at hw
      simp at hw
    | some u2 =>
      rw [sameWidget, hu1, hu2] at hw
      simp only [sameUser, Bool.and_eq_true, decide_eq_true_eq] at hw
      obtain ⟨⟨⟨hwid, _⟩, _⟩, ⟨⟨⟨hnm, hlk⟩, haf⟩, hrq⟩, _⟩ := hw
      rw [buildUserPart, buildUserPart, hu1, hu2]
      simp only []
      rw [hwid, hnm, hlk, haf, hrq]

theorem buildStep_congr {w1 w2 : WidgetRec} (hw : sameWidget w1 w2 = true)
    (st : BuildState) : buildStep st w1 = buildStep st w2 := by
  have hwid : w1.wid = w2.wid := by
    rw [sameWidget] at hw
    simp only [Bool.and_eq_true, decide_eq_true_eq] at hw
    exact hw.1.1.1
  have hax : w1.isaxis = w2.isaxis := by
    rw [sameWidget] at hw
    simp only [Bool.and_eq_true, decide_eq_true_eq] at hw
    exact hw.1.1.2
  rw [buildStep, buildStep, buildUserPart_congr hw st]
  cases buildUserPart st w2 with
  | error e => rfl
  | ok st1 =>
    simp only []
    rw [hax, hwid]

theorem buildList_congr :
    ∀ (t1 t2 : List WidgetRec), hiddenEquiv t1 t2 = true →
      ∀ st : BuildState, buildList st t1 = buildList st t2 := by
  intro t1
  induction t1 with
  | nil =>
    intro t2 ht st
    cases t2 with
    | nil => rfl
    | cons w2 r2 =>
      exact absurd ht Bool.false_ne_true
  | cons w1 r1 ih =>
    intro t2 ht st
    cases t2 with
    | nil =>
      exact absurd ht Bool.false_ne_true
    | cons w2 r2 =>
      rw [hiddenEquiv, Bool.and_eq_true] at ht
      rw [buildList, buildList, buildStep_congr ht.1 st]
      cases buildStep st w2 with
      | error e => rfl
      | ok st1 => exact ih r2 ht.2 st1

theorem findWidget_rel :
    ∀ (t1 t2 : List WidgetRec), hiddenEquiv t1 t2 = true → ∀ i : Nat,
      (findWidget t1 i = none ∧ findWidget t2 i = none) ∨
      (∃ w1 w2, findWidget t1 i = some w1 ∧ findWidget t2 i = some w2 ∧
        sameWidget w1 w2 = true) := by
  intro t1
  induction t1 with
  | nil =>
    intro t2 ht i
    cases t2 with
    | nil => exact Or.inl ⟨rfl, rfl⟩
    | cons w2 r2 =>
      exact absurd ht Bool.false_ne_true
  | cons w1 r1 ih =>
    intro t2 ht i
    cases t2 with
    | nil =>
      exact absurd ht Bool.false_ne_true
    | cons w2 r2 =>
      rw [hiddenEquiv, Bool.and_eq_true] at ht
      have hwid : w1.wid = w2.wid := by
        have hw := ht.1
        rw [sameWidget] at hw
        simp only [Bool.and_eq_true, decide_eq_true_eq] at hw
        exact hw.1.1.1
      by_cases hi : w1.wid = i
      · refine Or.inr ⟨w1, w2, ?_, ?_, ht.1⟩
        · rw [findWidget, if_pos hi]
        · rw [findWidget, if_pos (hwid ▸ hi)]
      · rw [findWidget, if_neg hi, findWidget, if_neg (hwid ▸ hi)]
        exact ih r2 ht.2 i

theorem getRangeU_congr {u1 u2 : AxisUserData} (h : u1.dataRanges = u2.dataRanges)
    (dn : Option String) (r : Range) : getRangeU u1 dn r = getRangeU u2 dn r := by
  cases dn with
  | none => rfl
  | some d =>
    show (match lookupStr u1.dataRanges d with
      | none => r
      | some dr => (min r.1 dr.1, max r.2 dr.2)) =
      (match lookupStr u2.dataRanges d with
      | none => r
      | some dr => (min r.1 dr.1, max r.2 dr.2))
    rw [h]

theorem contribPart_congr {t1 t2 : List WidgetRec} (ht : hiddenEquiv t1 t2 = true)
    (dep wd : Node) (st : PState) : contribPart t1 dep wd st = contribPart t2 dep wd st := by
  rcases findWidget_rel t1 t2 ht wd.1 with ⟨h1, h2⟩ | ⟨w1, w2, h1, h2, hw⟩
  · rw [contribPart, contribPart, h1, h2]
  · rw [contribPart, contribPart, h1, h2]
    simp only []
    cases hu1 : w1.user with
    | none =>
      cases hu2 : w2.user with
      | none => rfl
      | some u2 =>
        rw [sameWidget, hu1, hu2] at hw
        simp at hw
    | some u1 =>
      cases hu2 : w2.user with
      | none =>
        rw [sameWidget, hu1, hu2] at hw
        simp at hw
      | some u2 =>
        simp only []
        have hh : w1.hide = w2.hide := by
          rw [sameWidget] at hw
          simp only [Bool.and_eq_true, decide_eq_true_eq] at hw
          exact hw.1.2
        rw [hh]
        by_cases hok : hideOk w2.hide = true
        · rw [if_pos hok, if_pos hok]
          have hdr : u1.dataRanges = u2.dataRanges := by
            rw [sameWidget, hu1, hu2] at hw
            simp only [sameUser, Bool.and_eq_true, Bool.or_eq_true,
              decide_eq_true_eq] at hw
            cases hw.2.2 with
            | inl h => exact h
            | inr h =>
              exfalso
              rw [← hh, h] at hok
              exact Bool.false_ne_true hok
          cases lookupNat st.ranges dep.1 with
          | none => rfl
          | some r =>
            simp only []
            rw [getRangeU_congr hdr wd.2 r]
        · rw [if_neg hok, if_neg hok]

theorem finalizePart_congr {t1 t2 : List WidgetRec} (ht : hiddenEquiv t1 t2 = true)
    (wd : Node) (st : PState) : finalizePart t1 wd st = finalizePart t2 wd st := by
  rcases findWidget_rel t1 t2 ht wd.1 with ⟨h1, h2⟩ | ⟨w1, w2, h1, h2, hw⟩
  · rw [finalizePart, finalizePart, h1, h2]
  · rw [finalizePart, finalizePart, h1, h2]
    simp only []
    have hax : w1.isaxis = w2.isaxis := by
      rw [sameWidget] at hw
      simp only [Bool.and_eq_true, decide_eq_true_eq] at hw
      exact hw.1.1.2
    rw [hax]

theorem procPair_congr {t1 t2 : List WidgetRec} (ht : hiddenEquiv t1 t2 = true)
    (dep wd : Node) (st : PState) : procPair t1 dep wd st = procPair t2 dep wd st := by
  rw [procPair, procPair, contribPart_congr ht dep wd st, finalizePart_congr ht wd]

theorem procNodeFold_congr {t1 t2 : List WidgetRec} (ht : hiddenEquiv t1 t2 = true)
    (dep : Node) :
    ∀ (l : List Node) (st : PState),
      l.foldl (fun s wd => procPair t1 dep wd s) st =
        l.foldl (fun s wd => procPair t2 dep wd s) st := by
  intro l
  induction l with
  | nil =>
    intro st
    rfl
  | cons wd rest ih =>
    intro st
    rw [List.foldl_cons, List.foldl_cons, procPair_congr ht dep wd st]
    exact ih _

theorem nodeFold_congr {t1 t2 : List WidgetRec} (ht : hiddenEquiv t1 t2 = true)
    (deps : List (Node × Node)) :
    ∀ (l : List Node) (st : PState),
      l.foldl (procNode t1 deps) st = l.foldl (procNode t2 deps) st := by
  intro l
  induction l with
  | nil =>
    intro st
    rfl
  | cons dep rest ih =>
    intro st
    rw [List.foldl_cons, List.foldl_cons]
    have hstep : procNode t1 deps st dep = procNode t2 deps st dep := by
      rw [procNode, procNode]
      exact procNodeFold_congr ht dep _ st
    rw [hstep]
    exact ih _

theorem findAxisRanges_congr {t1 t2 : List WidgetRec} (ht : hiddenEquiv t1 t2 = true)
    (deps pairs : List (Node × Node)) (r0 : List (Nat × Range)) :
    findAxisRanges t1 deps pairs r0 = findAxisRanges t2 deps pairs r0 := by
  simp only [findAxisRanges, processDepends]
  rw [nodeFold_congr ht deps (topsort pairs)]

/-- Two trees that differ at most in hidden widgets' data (and in stored
ranges) produce identical passes. -/
theorem fullRun_hiddenEquiv {t1 t2 : List WidgetRec} (ht : hiddenEquiv t1 t2 = true) :
    fullRun t1 = fullRun t2 := by
  rw [fullRun, fullRun, buildList_congr t1 t2 ht initBuild]
  cases buildList initBuild t2 with
  | error e => rfl
  | ok b =>
    simp only []
    rw [findAxisRanges_congr ht b.deps b.pairs]

theorem sameUser_refl (h : Option Bool) (u : AxisUserData) : sameUser h u u = true := by
  simp [sameUser]

theorem sameWidget_stored (w : WidgetRec) (s : Option (Option Range)) :
    sameWidget { w with storedRange := s } w = true := by
  cases hu : w.user with
  | none =>
    rw [sameWidget]
    simp only [hu]
    simp
  | some u =>
    rw [sameWidget]
    simp only [hu]
    simp [sameUser_refl]

theorem sameWidget_refl (w : WidgetRec) : sameWidget w w = true := by
  cases hu : w.user with
  | none =>
    rw [sameWidget]
    simp only [hu]
    simp
  | some u =>
    rw [sameWidget]
    simp only [hu]
    simp [sameUser_refl]

theorem hiddenEquiv_writeBack (res : List (Nat × Option Range)) :
    ∀ t : List WidgetRec, hiddenEquiv (writeBack t res) t = true := by
  intro t
  induction t with
  | nil => rfl
  | cons w r ih =>
    rw [writeBack, List.map_cons]
    rw [writeBack] at ih
    rw [hiddenEquiv, Bool.and_eq_true]
    refine ⟨?_, ih⟩
    by_cases hax : w.isaxis = true
    · rw [if_pos hax]
      cases lookupNat res w.wid with
      | none => exact sameWidget_refl w
      | some v => exact sameWidget_stored w (some v)
    · rw [if_neg hax]
      exact sameWidget_refl w

/-- C5: the data of a hidden axis-user widget never influences any axis's
resolved range — two runs on trees differing only in hidden widgets' data
are identical in every observable (conjunct 1) — an axis fed only by one
hidden plotter (`c5hiddenTree`) resolves to automatic, and the hidden
widget's presence does not stop a visible plotter on the same axis from
resolving it (`c5mixTree`). -/
theorem c5_hidden_widgets_no_influence :
    (∀ t1 t2 : List WidgetRec, hiddenEquiv t1 t2 = true → fullRun t1 = fullRun t2) ∧
      resultsOf (fullRun c5hiddenTree) = [(1, (none : Option Range))] ∧
      resultsOf (fullRun c5mixTree) = [(1, some ((1 : Int), (2 : Int)))] :=
  ⟨fun _ _ ht => fullRun_hiddenEquiv ht, rfl, rfl⟩

/-- Witness for C5 at two concrete trees differing only in the hidden
plotter's contributed data. -/
theorem c5_hidden_widgets_witness :
    hiddenEquiv c5hiddenTree c5hiddenTree2 = true ∧
      fullRun c5hiddenTree = fullRun c5hiddenTree2 :=
  ⟨by decide, c5_hidden_widgets_no_influence.1 c5hiddenTree c5hiddenTree2 (by decide)⟩

/-- C7: a second full resolution pass on the tree produced by writing the
first pass's resolved ranges back onto the axes is identical to the first
pass — the pipeline reads no state the pass itself writes, rebuilds the
graph, the (deterministic, insertion-order tie-broken) schedule and all
range state from scratch, and so is idempotent. -/
theorem c7_second_pass_identical (tree : List WidgetRec) :
    fullRun (writeBack tree (resultsOf (fullRun tree))) = fullRun tree ∧
      resultsOf (fullRun (writeBack tree (resultsOf (fullRun tree)))) =
        resultsOf (fullRun tree) := by
  have h := fullRun_hiddenEquiv (hiddenEquiv_writeBack (resultsOf (fullRun tree)) tree)
  exact ⟨h, by rw [h]⟩

end VeuszPage

namespace VeuszSetting

/-! ### Setting mutation is atomic on `InvalidType`, and `Distance.convert`
never reaches its no-match branch for values `isDist` accepted -/

/-- C9: for every `convertTo` that rejects a value (raising `InvalidType`),
`Setting.set` leaves the stored value unchanged and invokes none of the
registered `onmodified` callbacks: the assignment
`self.val = self.convertTo(val)` evaluates its right-hand side first.  The
second and third conjuncts exhibit rejecting conversions of the `Bool` and
`Str` subclasses. -/
theorem c9_set_atomic_on_invalid_type :
    (∀ (conv : PyVal → Except Unit PyVal) (s : SettingSt) (v : PyVal),
        conv v = .error () → settingSetRun conv s v = (s, [], true)) ∧
      boolConvertTo (.pystr "x") = .error () ∧
      strConvertTo (.pyint 3) = .error () := by
  refine ⟨?_, rfl, rfl⟩
  intro conv s v h
  rw [settingSetRun, h]

/-- Witness for C9: `Bool.convertTo` rejects a string, and the `set` call
returns with the state untouched and no callback fired. -/
theorem c9_set_atomic_witness :
    boolConvertTo (.pystr "x") = .error () ∧
      settingSetRun boolConvertTo ⟨.pybool true, [7]⟩ (.pystr "x") =
        (⟨.pybool true, [7]⟩, [], true) :=
  ⟨rfl, c9_set_atomic_on_invalid_type.1 boolConvertTo ⟨.pybool true, [7]⟩ (.pystr "x") rfl⟩

theorem any_firstMatch :
    ∀ (l : List (List Char → Bool)) (d : List Char),
      l.any (fun m => m d) = true → (firstMatch d l).isSome = true := by
  intro l
  induction l with
  | nil =>
    intro d h
    cases h
  | cons m rest ih =>
    intro d h
    rw [List.any_cons] at h
    rw [firstMatch]
    by_cases hm : m d = true
    · rw [if_pos hm]
      rfl
    · rw [if_neg hm]
      have h2 : rest.any (fun m => m d) = true := by
        cases hb : rest.any (fun m => m d) with
        | true => rfl
        | false =>
          rw [hb] at h
          cases hmd : m d with
          | true => exact absurd hmd hm
          | false =>
            rw [hmd] at h
            cases h
      have h3 := ih d h2
      cases hfm : firstMatch d rest with
      | none =>
        rw [hfm] at h3
        cases h3
      | some i => rfl

/-- C10: every value accepted by `Distance.convertTo` (validated by
`isDist` against the seven distance forms) makes some regular expression of
the same `_distregexp` table match inside `Distance.convert`, so the scan
returns a matched entry and the `"Cannot convert distance"` `ValueError`
branch is unreachable. -/
theorem c10_accepted_distance_always_converts :
    ∀ v w : String, distConvertTo v = .ok w → (distanceConvert w).isSome = true := by
  intro v w h
  rw [distConvertTo] at h
  by_cases hd : isDist v = true
  · rw [if_pos hd] at h
    cases h
    rw [distanceConvert]
    rw [isDist] at hd
    exact any_firstMatch distMatchers _ hd
  · rw [if_neg hd] at h
    cases h

/-- Witness for C10 at the stored value `"1.5cm"`. -/
theorem c10_accepted_distance_witness :
    distConvertTo "1.5cm" = .ok "1.5cm" ∧ (distanceConvert "1.5cm").isSome = true :=
  ⟨rfl, c10_accepted_distance_always_converts "1.5cm" "1.5cm" rfl⟩

end VeuszSetting
